import Mathlib

/-!
Verification of the PL/SQL indenter (`src/extension/plsql-indenter.js`).

The JavaScript source is shallowly embedded over `List Char`.  Strings are
modelled as their character lists; the JavaScript regular expressions are
translated into explicit scanning functions that mirror the engine's
left-to-right, leftmost-match, continue-after-match semantics (including the
greedy/backtracking behaviour of the specific patterns that appear in the
source).  Case-insensitive matching is modelled by ASCII upper-casing, which
covers every keyword the source matches.  Loops whose termination is not
structural (the semicolon-splitting fixpoint loop, the scanners) take an
explicit fuel argument always instantiated with a sufficient bound.
-/

set_option maxRecDepth 10000
set_option maxHeartbeats 2000000

namespace PlsqlIndenter

abbrev Chars := List Char

/-- The JavaScript `\s` character class (WhiteSpace ∪ LineTerminator). -/
def wsChars : Chars :=
  [' ', '\t', '\n', '\r', '\x0b', '\x0c', '\u00A0', '\u1680',
   '\u2000', '\u2001', '\u2002', '\u2003', '\u2004', '\u2005', '\u2006',
   '\u2007', '\u2008', '\u2009', '\u200A', '\u2028', '\u2029', '\u202F',
   '\u205F', '\u3000', '\uFEFF']

def jsWS (c : Char) : Bool := wsChars.elem c

/-- The JavaScript `\w` character class. -/
def wordChar (c : Char) : Bool :=
  (65 ≤ c.toNat && c.toNat ≤ 90) || (97 ≤ c.toNat && c.toNat ≤ 122) ||
  (48 ≤ c.toNat && c.toNat ≤ 57) || c.toNat == 95

/-- The `[A-Za-z_]` character class. -/
def alphaU (c : Char) : Bool :=
  (65 ≤ c.toNat && c.toNat ≤ 90) || (97 ≤ c.toNat && c.toNat ≤ 122) || c.toNat == 95

/-- ASCII upper-casing, the fragment of `toUpperCase` the source relies on. -/
def upChar (c : Char) : Char :=
  if 97 ≤ c.toNat ∧ c.toNat ≤ 122 then Char.ofNat (c.toNat - 32) else c

def eqCI (a b : Char) : Bool := upChar a == upChar b

def trimStart (cs : Chars) : Chars := cs.dropWhile jsWS

def trimEnd (cs : Chars) : Chars := (cs.reverse.dropWhile jsWS).reverse

def jsTrim (cs : Chars) : Chars := trimEnd (trimStart cs)

/-- `String.prototype.split('\n')` (an empty string yields one empty piece). -/
def splitNL : Chars → List Chars
  | [] => [[]]
  | c :: t =>
    if c = '\n' then [] :: splitNL t
    else
      match splitNL t with
      | h :: r => (c :: h) :: r
      | [] => [[c]]

/-- `Array.prototype.join('\n')`. -/
def joinNL : List Chars → Chars
  | [] => []
  | [x] => x
  | x :: r => x ++ '\n' :: joinNL r

def sp (n : Nat) : Chars := List.replicate n ' '

/-- Case-sensitive check that `cs` begins with `pat`; returns the rest. -/
def dropLit : Chars → Chars → Option Chars
  | [], cs => some cs
  | p :: ps, cs =>
    match cs with
    | [] => none
    | c :: cs2 => if c = p then dropLit ps cs2 else none

/-- Case-insensitive check that `cs` begins with `pat`; returns the rest. -/
def dropLitCI : Chars → Chars → Option Chars
  | [], cs => some cs
  | p :: ps, cs =>
    match cs with
    | [] => none
    | c :: cs2 => if eqCI c p then dropLitCI ps cs2 else none

/-- First index at which `pat` occurs in `cs` (`String.prototype.indexOf`). -/
def indexOfSub (pat : Chars) : Chars → Option Nat
  | [] => if pat.isEmpty then some 0 else none
  | c :: t =>
    if (dropLit pat (c :: t)).isSome then some 0
    else (indexOfSub pat t).map (· + 1)

/-- Decimal digits of a number, as `String(n)` produces them (the fuel is
always sufficient: a number below `10^fuel` is printed within `fuel` digits). -/
def natCharsGo : Nat → Nat → Chars
  | 0, _ => []
  | fuel + 1, n =>
    if n < 10 then [Char.ofNat (48 + n)]
    else natCharsGo fuel (n / 10) ++ [Char.ofNat (48 + n % 10)]

def natChars (n : Nat) : Chars := natCharsGo (n + 1) n

/-! ## Tokenizer (`tokenize`, source lines 16–85) -/

inductive SegType where
  | code | strLit | lineComment | blockComment
deriving DecidableEq, Repr

structure Segment where
  type : SegType
  value : Chars
deriving DecidableEq, Repr

/-- Closing delimiter character for a q-quoted literal (source lines 66–71). -/
def qClose (d : Char) : Char :=
  if d = '[' then ']'
  else if d = '\x7b' then '\x7d'
  else if d = '<' then '>'
  else if d = '(' then ')'
  else d

/-- Length of a standard quoted literal after its opening quote
(the `j` scan of source lines 46–56). -/
def strScan : Chars → Nat
  | [] => 0
  | '\'' :: '\'' :: r => 2 + strScan r
  | '\'' :: _ => 1
  | _ :: r => 1 + strScan r

/-- One tokenizer dispatch: if the scan position starts a comment, quoted
string or q-quoted string, return that segment and the rest of the input
(source lines 23–78); otherwise `none` (the character joins the code buffer). -/
def scanSpecial (cs : Chars) : Option (Segment × Chars) :=
  match cs with
  | '-' :: '-' :: rest =>
    some (⟨.lineComment, '-' :: '-' :: rest.takeWhile (· ≠ '\n')⟩,
      rest.dropWhile (· ≠ '\n'))
  | '/' :: '*' :: rest =>
    match indexOfSub ['*', '/'] rest with
    | some k => some (⟨.blockComment, '/' :: '*' :: rest.take (k + 2)⟩, rest.drop (k + 2))
    | none => some (⟨.blockComment, '/' :: '*' :: rest⟩, [])
  | '\'' :: rest =>
    let n := strScan rest
    some (⟨.strLit, '\'' :: rest.take n⟩, rest.drop n)
  | q :: '\'' :: d :: rest =>
    if q = 'q' ∨ q = 'Q' then
      match indexOfSub [qClose d, '\''] rest with
      | some k => some (⟨.strLit, q :: '\'' :: d :: rest.take (k + 2)⟩, rest.drop (k + 2))
      | none => some (⟨.strLit, q :: '\'' :: d :: rest⟩, [])
    else none
  | _ => none

/-- Main tokenizer loop: `bufRev` is the reversed pending code buffer.  The
fuel argument is always instantiated with more than the input length; every
iteration of the source's scan loop strictly advances, which is proved below
(`scanSpecial` strictly shrinks its input), so the fuel never runs out. -/
def tokGo : Nat → Chars → Chars → List Segment
  | 0, bufRev, _ => if bufRev.isEmpty then [] else [⟨.code, bufRev.reverse⟩]
  | fuel + 1, bufRev, cs =>
    match scanSpecial cs with
    | some (seg, rest) =>
      if bufRev.isEmpty then seg :: tokGo fuel [] rest
      else ⟨.code, bufRev.reverse⟩ :: seg :: tokGo fuel [] rest
    | none =>
      match cs with
      | [] => if bufRev.isEmpty then [] else [⟨.code, bufRev.reverse⟩]
      | c :: rest => tokGo fuel (c :: bufRev) rest

def tokenizeL (cs : Chars) : List Segment := tokGo (cs.length + 1) [] cs

def tokenize (s : String) : List Segment := tokenizeL s.data

def concatValues (segs : List Segment) : Chars := (segs.map Segment.value).flatten

/-- Mask character used by `stripNonCode` for non-code segments. -/
def maskCh (c : Char) : Char := if c = '\n' then '\n' else ' '

def maskSeg (seg : Segment) : Chars :=
  if seg.type = .code then seg.value else seg.value.map maskCh

/-- `stripNonCode` (source lines 91–106). -/
def stripNonCodeL (cs : Chars) : Chars := ((tokenizeL cs).map maskSeg).flatten

def stripNonCode (s : String) : String := ⟨stripNonCodeL s.data⟩

/-! ## Statement splitter (`formatPlsql` pre-processing, source lines 128–262)

Each `code.replace(regex, …)` call is modelled by a left-to-right scanner:
at every position it attempts the translated pattern; on a match it emits the
replacement and resumes after the matched region (tracking the last consumed
source character for `\b` look-behinds), otherwise it copies one character. -/

def lit (s : String) : Chars := s.data

def takeWS (cs : Chars) : Chars := cs.takeWhile jsWS

def dropWS (cs : Chars) : Chars := cs.dropWhile jsWS

/-- JavaScript line terminators (what `.` does not match). -/
def lineTerm (c : Char) : Bool := c = '\n' || c = '\r' || c = '\u2028' || c = '\u2029'

/-- Word-boundary test against the previously consumed character. -/
def boundB : Option Char → Bool
  | none => true
  | some c => !wordChar c

/-- Word boundary after a keyword: next character non-word (or end). -/
def boundAfter : Chars → Bool
  | [] => true
  | c :: _ => !wordChar c

/-- Case-insensitive keyword match returning the matched source slice. -/
def kwCI (kw : Chars) (cs : Chars) : Option (Chars × Chars) :=
  match dropLitCI kw cs with
  | some rest => some (cs.take kw.length, rest)
  | none => none

/-- First alternative that matches (the alternatives have pairwise distinct
viable prefixes wherever this is used, so this equals regex alternation). -/
def altKwCI : List Chars → Chars → Option (Chars × Chars)
  | [], _ => none
  | k :: ks, cs =>
    match kwCI k cs with
    | some r => some r
    | none => altKwCI ks cs

/-- First alternative that matches with a trailing `\b`. -/
def altKwBd : List Chars → Chars → Option (Chars × Chars)
  | [], _ => none
  | k :: ks, cs =>
    match kwCI k cs with
    | some (src, rest) => if boundAfter rest then some (src, rest) else altKwBd ks cs
    | none => altKwBd ks cs

/-- Generic global-replace scanner.  `try prev cs` returns the number of
consumed source characters (≥ 1) and the replacement text. -/
def rscanB (tryf : Option Char → Chars → Option (Nat × Chars)) :
    Nat → Option Char → Chars → Chars
  | 0, _, cs => cs
  | fuel + 1, prev, cs =>
    match tryf prev cs with
    | some (n, rep) =>
      if n = 0 then
        match cs with
        | [] => []
        | c :: rest => c :: rscanB tryf fuel (some c) rest
      else rep ++ rscanB tryf fuel (cs.take n).getLast? (cs.drop n)
    | none =>
      match cs with
      | [] => []
      | c :: rest => c :: rscanB tryf fuel (some c) rest

def runScan (tryf : Option Char → Chars → Option (Nat × Chars)) (cs : Chars) : Chars :=
  rscanB tryf (cs.length + 1) none cs

/-- Rule 1: `/\bEND\s*\n\s*(LOOP|IF|CASE)\s*;/gi` → `'END $1;'`. -/
def tryR1 (prev : Option Char) (cs : Chars) : Option (Nat × Chars) :=
  if !boundB prev then none else
  match kwCI (lit "END") cs with
  | none => none
  | some (_, r1) =>
    let ws := takeWS r1
    if !ws.elem '\n' then none else
    let r2 := dropWS r1
    match altKwCI [lit "LOOP", lit "IF", lit "CASE"] r2 with
    | none => none
    | some (ksrc, r3) =>
      let ws2 := takeWS r3
      match dropWS r3 with
      | ';' :: _ =>
        some (3 + ws.length + ksrc.length + ws2.length + 1, lit "END " ++ ksrc ++ [';'])
      | _ => none

/-- Rule 2 helper: position of the first depth-zero `;` that is followed by a
word character on the same (masked) line (source lines 173–186). -/
def r2Find : Int → Nat → Chars → Option Nat
  | _, _, [] => none
  | _, _, [_] => none
  | depth, ci, c :: rest =>
    let d1 : Int := if c = '(' then depth + 1 else depth
    let d2 : Int := if c = ')' then d1 - 1 else d1
    if (d2 == 0) && (c == ';') &&
        (match jsTrim rest with
         | [] => false
         | h :: _ => alphaU h) then
      some ci
    else r2Find d2 (ci + 1) rest

def zipPad : List Chars → List Chars → List (Chars × Chars)
  | [], _ => []
  | x :: xs, [] => (x, []) :: zipPad xs []
  | x :: xs, y :: ys => (x, y) :: zipPad xs ys

/-- One pass of rule 2: split each line at its first splittable semicolon. -/
def r2Once (code : Chars) : Chars :=
  let strip := stripNonCodeL code
  let pairs := zipPad (splitNL code) (splitNL strip)
  joinNL (pairs.flatMap fun p =>
    match r2Find 0 0 p.2 with
    | some idx => [p.1.take (idx + 1), trimStart (p.1.drop (idx + 1))]
    | none => [p.1])

/-- Rule 2's `do … while (code !== prevCode)` fixpoint loop. -/
def r2Loop : Nat → Chars → Chars
  | 0, code => code
  | fuel + 1, code =>
    let c2 := r2Once code
    if c2 = code then code else r2Loop fuel c2

/-- Rule 3: `/\b(BEGIN)\s+(?!\s*$)([A-Za-z_])/gi` → `'$1\n$2'`. -/
def tryR3 (prev : Option Char) (cs : Chars) : Option (Nat × Chars) :=
  if !boundB prev then none else
  match kwCI (lit "BEGIN") cs with
  | none => none
  | some (src, r1) =>
    let ws := takeWS r1
    if ws.isEmpty then none else
    match dropWS r1 with
    | c :: _ => if alphaU c then some (5 + ws.length + 1, src ++ '\n' :: [c]) else none
    | [] => none

/-- Rule 4: `/\b(DECLARE)\s+(\w)/gi` → `'$1\n$2'`. -/
def tryR4 (prev : Option Char) (cs : Chars) : Option (Nat × Chars) :=
  if !boundB prev then none else
  match kwCI (lit "DECLARE") cs with
  | none => none
  | some (src, r1) =>
    let ws := takeWS r1
    if ws.isEmpty then none else
    match dropWS r1 with
    | c :: _ => if wordChar c then some (7 + ws.length + 1, src ++ '\n' :: [c]) else none
    | [] => none

def typeKws : List Chars :=
  [lit "NUMBER", lit "VARCHAR2", lit "INTEGER", lit "BOOLEAN", lit "DATE",
   lit "TIMESTAMP", lit "CHAR", lit "CLOB", lit "BLOB", lit "PLS_INTEGER",
   lit "BINARY_INTEGER", lit "RAW", lit "LONG", lit "CONSTANT", lit "CURSOR"]

/-- Rule 5: `/\b(IS|AS)\s+(\w+\s+(?:NUMBER|…)\b)/gi` → `'$1\n$2'`. -/
def tryR5 (prev : Option Char) (cs : Chars) : Option (Nat × Chars) :=
  if !boundB prev then none else
  match altKwCI [lit "IS", lit "AS"] cs with
  | none => none
  | some (src, r1) =>
    let ws1 := takeWS r1
    if ws1.isEmpty then none else
    let r2 := dropWS r1
    let w := r2.takeWhile wordChar
    if w.isEmpty then none else
    let r3 := r2.drop w.length
    let ws2 := takeWS r3
    if ws2.isEmpty then none else
    match altKwBd typeKws (dropWS r3) with
    | some (tsrc, _) =>
      some (2 + ws1.length + w.length + ws2.length + tsrc.length,
        src ++ '\n' :: (w ++ ws2 ++ tsrc))
    | none => none

/-- Rule 6a: `/;\s*(END\s+(IF|LOOP|CASE)\s*;)/gi` → `';\n$1'`. -/
def tryR6a (_ : Option Char) (cs : Chars) : Option (Nat × Chars) :=
  match cs with
  | ';' :: r1 =>
    let ws := takeWS r1
    match kwCI (lit "END") (dropWS r1) with
    | none => none
    | some (esrc, r3) =>
      let ws2 := takeWS r3
      if ws2.isEmpty then none else
      match altKwCI [lit "IF", lit "LOOP", lit "CASE"] (dropWS r3) with
      | none => none
      | some (ksrc, r5) =>
        let ws3 := takeWS r5
        match dropWS r5 with
        | ';' :: _ =>
          some (1 + ws.length + 3 + ws2.length + ksrc.length + ws3.length + 1,
            ';' :: '\n' :: (esrc ++ ws2 ++ ksrc ++ ws3 ++ [';']))
        | _ => none
  | _ => none

/-- Rule 6b: `/;\s*(END\s+\w+\s*;)/gi` → `';\n$1'`. -/
def tryR6b (_ : Option Char) (cs : Chars) : Option (Nat × Chars) :=
  match cs with
  | ';' :: r1 =>
    let ws := takeWS r1
    match kwCI (lit "END") (dropWS r1) with
    | none => none
    | some (esrc, r3) =>
      let ws2 := takeWS r3
      if ws2.isEmpty then none else
      let r4 := dropWS r3
      let w := r4.takeWhile wordChar
      if w.isEmpty then none else
      let r5 := r4.drop w.length
      let ws3 := takeWS r5
      match dropWS r5 with
      | ';' :: _ =>
        some (1 + ws.length + 3 + ws2.length + w.length + ws3.length + 1,
          ';' :: '\n' :: (esrc ++ ws2 ++ w ++ ws3 ++ [';']))
      | _ => none
  | _ => none

/-- Rule 6c: `/;\s*(END\s*;)/gi` → `';\n$1'`. -/
def tryR6c (_ : Option Char) (cs : Chars) : Option (Nat × Chars) :=
  match cs with
  | ';' :: r1 =>
    let ws := takeWS r1
    match kwCI (lit "END") (dropWS r1) with
    | none => none
    | some (esrc, r3) =>
      let ws2 := takeWS r3
      match dropWS r3 with
      | ';' :: _ =>
        some (1 + ws.length + 3 + ws2.length + 1, ';' :: '\n' :: (esrc ++ ws2 ++ [';']))
      | _ => none
  | _ => none

/-- Rule 7: `/(\bTHEN)\s+(?!\s*$)(.+)/gi` → `'$1\n$2'`. -/
def tryR7 (prev : Option Char) (cs : Chars) : Option (Nat × Chars) :=
  if !boundB prev then none else
  match kwCI (lit "THEN") cs with
  | none => none
  | some (src, r1) =>
    let ws := takeWS r1
    if ws.isEmpty then none else
    let r2 := dropWS r1
    if r2.isEmpty then none else
    let g2 := r2.takeWhile (fun c => !lineTerm c)
    if g2.isEmpty then none else
    some (4 + ws.length + g2.length, src ++ '\n' :: g2)

/-- Rule 8 backtracking over the length of the consumed `\s+` run. -/
def r8Back (src r1 : Chars) : Nat → Option (Nat × Chars)
  | 0 => none
  | k + 1 =>
    let rest := r1.drop (k + 1)
    let okA := rest.any (fun c => !jsWS c)
    let okB := !(match kwCI (lit "END") rest with
      | some (_, r) => boundAfter r
      | none => false)
    let okC := match rest with
      | [] => false
      | c :: _ => !lineTerm c
    if okA && okB && okC then
      let g2 := rest.takeWhile (fun c => !lineTerm c)
      some (4 + (k + 1) + g2.length, src ++ '\n' :: g2)
    else r8Back src r1 k

/-- Rule 8: `/(\bLOOP)\s+(?!\s*$)(?!END\b)(.+)/gi` → `'$1\n$2'`. -/
def tryR8 (prev : Option Char) (cs : Chars) : Option (Nat × Chars) :=
  if !boundB prev then none else
  match kwCI (lit "LOOP") cs with
  | none => none
  | some (src, r1) =>
    let ws := takeWS r1
    if ws.isEmpty then none else
    r8Back src r1 ws.length

/-- Rule 9: `/;\s*(KW\b)/gi` → `';\n$1'` for ELSIF, ELSE, EXCEPTION, WHEN. -/
def tryR9kw (kw : Chars) (_ : Option Char) (cs : Chars) : Option (Nat × Chars) :=
  match cs with
  | ';' :: r1 =>
    let ws := takeWS r1
    match kwCI kw (dropWS r1) with
    | some (src, rest) =>
      if boundAfter rest then some (1 + ws.length + kw.length, ';' :: '\n' :: src)
      else none
    | none => none
  | _ => none

/-- Rule 9b backtracking over the `\s+` run (only its full length can pass,
because the final `[A-Za-z_]` needs a non-space character). -/
def r9bBack (src r1 : Chars) : Nat → Option (Nat × Chars)
  | 0 => none
  | k + 1 =>
    let rest := r1.drop (k + 1)
    let okA := rest.any (fun c => !jsWS c)
    let okB := !(match kwCI (lit "IF") rest with
      | some (_, r) => boundAfter r
      | none => false)
    match rest with
    | c :: _ =>
      if okA && okB && alphaU c then some (4 + (k + 1) + 1, src ++ '\n' :: [c])
      else r9bBack src r1 k
    | [] => r9bBack src r1 k

/-- Rule 9b: `/\b(ELSE)\s+(?!\s*$)(?!IF\b)([A-Za-z_])/gi` → `'$1\n$2'`. -/
def tryR9b (prev : Option Char) (cs : Chars) : Option (Nat × Chars) :=
  if !boundB prev then none else
  match kwCI (lit "ELSE") cs with
  | none => none
  | some (src, r1) =>
    let ws := takeWS r1
    if ws.isEmpty then none else
    r9bBack src r1 ws.length

/-- Rule 9b′: `/\b(EXCEPTION)\s+(WHEN\b)/gi` → `'$1\n$2'`. -/
def tryR9exc (prev : Option Char) (cs : Chars) : Option (Nat × Chars) :=
  if !boundB prev then none else
  match kwCI (lit "EXCEPTION") cs with
  | none => none
  | some (src, r1) =>
    let ws := takeWS r1
    if ws.isEmpty then none else
    match kwCI (lit "WHEN") (dropWS r1) with
    | some (wsrc, rest) =>
      if boundAfter rest then some (9 + ws.length + 4, src ++ '\n' :: wsrc)
      else none
    | none => none

/-- Rule 9c: `/\b(CASE\s+\S+)\s+(WHEN\b)/gi` → `'$1\n$2'`. -/
def tryR9c (prev : Option Char) (cs : Chars) : Option (Nat × Chars) :=
  if !boundB prev then none else
  match kwCI (lit "CASE") cs with
  | none => none
  | some (src, r1) =>
    let ws1 := takeWS r1
    if ws1.isEmpty then none else
    let r2 := dropWS r1
    let t := r2.takeWhile (fun c => !jsWS c)
    if t.isEmpty then none else
    let r3 := r2.drop t.length
    let ws2 := takeWS r3
    if ws2.isEmpty then none else
    match kwCI (lit "WHEN") (dropWS r3) with
    | some (wsrc, rest) =>
      if boundAfter rest then
        some (4 + ws1.length + t.length + ws2.length + 4,
          (src ++ ws1 ++ t) ++ '\n' :: wsrc)
      else none
    | none => none

/-- Rule 10 (single keyword): `/\s+(KW)\s+/gi` → `'\n$1 '`. -/
def tryR10 (kw : Chars) (_ : Option Char) (cs : Chars) : Option (Nat × Chars) :=
  let ws := takeWS cs
  if ws.isEmpty then none else
  match kwCI kw (dropWS cs) with
  | some (src, r2) =>
    let ws2 := takeWS r2
    if ws2.isEmpty then none else
    some (ws.length + kw.length + ws2.length, '\n' :: (src ++ [' ']))
  | none => none

/-- Rule 10 (two-word keyword): `/\s+(K1\s+K2)\s+/gi` → `'\n$1 '`. -/
def tryR10two (k1 k2 : Chars) (_ : Option Char) (cs : Chars) : Option (Nat × Chars) :=
  let ws := takeWS cs
  if ws.isEmpty then none else
  match kwCI k1 (dropWS cs) with
  | some (s1, r2) =>
    let wsMid := takeWS r2
    if wsMid.isEmpty then none else
    match kwCI k2 (dropWS r2) with
    | some (s2, r3) =>
      let ws2 := takeWS r3
      if ws2.isEmpty then none else
      some (ws.length + k1.length + wsMid.length + k2.length + ws2.length,
        '\n' :: (s1 ++ wsMid ++ s2 ++ [' ']))
    | none => none
  | none => none

/-- Rule 10 INTO backtracking: the trailing `\s+` shrinks until the
`(?!VALUES)` look-ahead passes. -/
def r10IntoBack (wsLen : Nat) (src r2 : Chars) : Nat → Option (Nat × Chars)
  | 0 => none
  | k + 1 =>
    if (dropLitCI (lit "VALUES") (r2.drop (k + 1))).isSome then r10IntoBack wsLen src r2 k
    else some (wsLen + 4 + (k + 1), '\n' :: (src ++ [' ']))

/-- Rule 10 INTO: `/\s+(INTO)\s+(?!VALUES)/gi` → `'\n$1 '`. -/
def tryR10into (_ : Option Char) (cs : Chars) : Option (Nat × Chars) :=
  let ws := takeWS cs
  if ws.isEmpty then none else
  match kwCI (lit "INTO") (dropWS cs) with
  | some (src, r2) =>
    let ws2 := takeWS r2
    if ws2.isEmpty then none else
    r10IntoBack ws.length src r2 ws2.length
  | none => none

/-- The look-ahead of rule 10 AND:
`(?=\w+\s*[=<>!]|\w+\s+(?:IN|LIKE|BETWEEN|IS)\b)`. -/
def andLookahead (rest : Chars) : Bool :=
  let w := rest.takeWhile wordChar
  if w.isEmpty then false else
  let after := rest.drop w.length
  let alt1 :=
    match dropWS after with
    | c :: _ => c = '=' || c = '<' || c = '>' || c = '!'
    | [] => false
  let alt2 :=
    if (takeWS after).isEmpty then false
    else (altKwBd [lit "IN", lit "LIKE", lit "BETWEEN", lit "IS"] (dropWS after)).isSome
  alt1 || alt2

/-- Rule 10 AND: `/\s+(AND)\s+(?=\w+\s*[=<>!]|\w+\s+(?:IN|LIKE|BETWEEN|IS)\b)/gi`
→ `'\n$1 '` (only the full trailing run can satisfy the look-ahead, which
needs a word character at the resume position). -/
def tryR10and (_ : Option Char) (cs : Chars) : Option (Nat × Chars) :=
  let ws := takeWS cs
  if ws.isEmpty then none else
  match kwCI (lit "AND") (dropWS cs) with
  | some (src, r2) =>
    let ws2 := takeWS r2
    if ws2.isEmpty then none else
    if andLookahead (dropWS r2) then
      some (ws.length + 3 + ws2.length, '\n' :: (src ++ [' ']))
    else none
  | none => none

/-- The full pre-processing rule sequence (source lines 152–254), applied to
placeholder-protected text. -/
def splitRules (code : Chars) : Chars :=
  let c1 := runScan tryR1 code
  let c2 := r2Loop (c1.length + 1) c1
  let c3 := runScan tryR3 c2
  let c4 := runScan tryR4 c3
  let c5 := runScan tryR5 c4
  let c6 := runScan tryR6a c5
  let c6b := runScan tryR6b c6
  let c6c := runScan tryR6c c6b
  let c7 := runScan tryR7 c6c
  let c8 := runScan tryR8 c7
  let c9a := runScan (tryR9kw (lit "ELSIF")) c8
  let c9b := runScan (tryR9kw (lit "ELSE")) c9a
  let c9c := runScan (tryR9kw (lit "EXCEPTION")) c9b
  let c9d := runScan (tryR9kw (lit "WHEN")) c9c
  let c9e := runScan tryR9b c9d
  let c9f := runScan tryR9exc c9e
  let c9g := runScan tryR9c c9f
  let c10a := runScan (tryR10 (lit "FROM")) c9g
  let c10b := runScan (tryR10 (lit "WHERE")) c10a
  let c10c := runScan tryR10into c10b
  let c10d := runScan (tryR10 (lit "SET")) c10c
  let c10e := runScan (tryR10two (lit "ORDER") (lit "BY")) c10d
  let c10f := runScan (tryR10two (lit "GROUP") (lit "BY")) c10e
  let c10g := runScan (tryR10 (lit "HAVING")) c10f
  runScan tryR10and c10g

/-- Placeholder name `'___STR' + k + '___'` (source line 136). -/
def phName (k : Nat) : Chars := lit "___STR" ++ natChars k ++ lit "___"

/-- Substitute every non-code segment by a placeholder, returning the
protected text and the stored segment values in order (lines 131–143). -/
def phGo : List Segment → Nat → Chars × List Chars
  | [], _ => ([], [])
  | s :: rest, k =>
    if s.type = .code then
      let p := phGo rest k
      (s.value ++ p.1, p.2)
    else
      let p := phGo rest (k + 1)
      (phName k ++ p.1, s.value :: p.2)

/-- Literal global replacement (`code.split(ph).join(value)`, lines 259–262). -/
def replaceAllSub (pat val : Chars) : Nat → Chars → Chars
  | 0, cs => cs
  | fuel + 1, cs =>
    match dropLit pat cs with
    | some rest => if pat.isEmpty then cs else val ++ replaceAllSub pat val fuel rest
    | none =>
      match cs with
      | [] => []
      | c :: rest => c :: replaceAllSub pat val fuel rest

/-- Restore the stored segments (lines 259–262, sequential over the store). -/
def restGo (store : List Chars) (k : Nat) (code : Chars) : Chars :=
  match store with
  | [] => code
  | v :: rest => restGo rest (k + 1) (replaceAllSub (phName k) v (code.length + 1) code)

/-! ## Keyword caser (`uppercaseKeywords`, source lines 733–773) -/

/-- The keyword table of source lines 734–751, in source order. -/
def keywordList : List Chars :=
  [lit "DECLARE", lit "BEGIN", lit "END", lit "EXCEPTION", lit "WHEN", lit "THEN",
   lit "ELSE", lit "ELSIF", lit "IF", lit "LOOP", lit "FOR", lit "WHILE", lit "EXIT",
   lit "CONTINUE", lit "RETURN", lit "CASE", lit "SELECT", lit "FROM", lit "WHERE",
   lit "INSERT", lit "INTO", lit "VALUES", lit "UPDATE", lit "SET", lit "DELETE",
   lit "MERGE", lit "CREATE", lit "OR", lit "REPLACE", lit "PROCEDURE", lit "FUNCTION",
   lit "PACKAGE", lit "BODY", lit "TRIGGER", lit "TYPE", lit "IS", lit "AS", lit "IN",
   lit "OUT", lit "NOCOPY", lit "DEFAULT", lit "NULL", lit "NOT", lit "AND",
   lit "BETWEEN", lit "LIKE", lit "EXISTS", lit "HAVING", lit "GROUP", lit "BY",
   lit "ORDER", lit "ASC", lit "DESC", lit "JOIN", lit "INNER", lit "LEFT",
   lit "RIGHT", lit "OUTER", lit "FULL", lit "CROSS", lit "ON", lit "UNION",
   lit "ALL", lit "INTERSECT", lit "MINUS", lit "DISTINCT", lit "TABLE", lit "ALTER",
   lit "DROP", lit "INDEX", lit "VIEW", lit "SEQUENCE", lit "GRANT", lit "REVOKE",
   lit "COMMIT", lit "ROLLBACK", lit "SAVEPOINT", lit "CURSOR", lit "OPEN",
   lit "FETCH", lit "CLOSE", lit "BULK", lit "COLLECT", lit "FORALL", lit "LIMIT",
   lit "ROWTYPE", lit "VARCHAR2", lit "NUMBER", lit "INTEGER", lit "BOOLEAN",
   lit "DATE", lit "TIMESTAMP", lit "CLOB", lit "BLOB", lit "CONSTANT", lit "PRAGMA",
   lit "AUTONOMOUS_TRANSACTION", lit "RAISE", lit "RAISE_APPLICATION_ERROR",
   lit "DBMS_OUTPUT", lit "PUT_LINE", lit "NO_DATA_FOUND", lit "TOO_MANY_ROWS",
   lit "OTHERS", lit "SQLCODE", lit "SQLERRM", lit "EXECUTE", lit "IMMEDIATE",
   lit "USING", lit "RETURNING", lit "WITH"]

/-- One keyword's `segment.replace(/\bKW\b/gi, KW)`. -/
def tryWordKw (kw : Chars) (prev : Option Char) (cs : Chars) : Option (Nat × Chars) :=
  if !boundB prev then none else
  match kwCI kw cs with
  | some (_, rest) => if boundAfter rest then some (kw.length, kw) else none
  | none => none

def replaceWordCI (seg kw : Chars) : Chars := runScan (tryWordKw kw) seg

/-- `uppercaseKeywords` (source lines 733–773): canonical-case keywords in
code segments only, strings and comments pass through byte-for-byte. -/
def uppercaseKeywords (origLine : Chars) : Chars :=
  ((tokenizeL origLine).map fun seg =>
    if seg.type = .code then keywordList.foldl replaceWordCI seg.value
    else seg.value).flatten

/-! ## Indentation engine (source lines 264–464) -/

/-- `/^\s*KW\b/i`. -/
def startKwB (kw cs : Chars) : Bool :=
  match kwCI kw (dropWS cs) with
  | some (_, rest) => boundAfter rest
  | none => false

/-- `/\bKW\s*$/i`. -/
def endsKwB (kw cs : Chars) : Bool :=
  let t := trimEnd cs
  if t.length < kw.length then false
  else
    let pre := t.take (t.length - kw.length)
    let tail := t.drop (t.length - kw.length)
    (dropLitCI kw tail).isSome &&
      (match pre.getLast? with
       | none => true
       | some c => !wordChar c)

/-- `/\bKW\b/i` anywhere in the line. -/
def containsKwB (kw : Chars) : Chars → Bool :=
  go none
where
  go : Option Char → Chars → Bool
    | prev, cs =>
      (boundB prev &&
        match kwCI kw cs with
        | some (_, rest) => boundAfter rest
        | none => false) ||
      match cs with
      | [] => false
      | c :: rest => go (some c) rest

/-- `reEnd = /^\s*END\s*(IF|LOOP|CASE|)?\s*;/i` (line 294). -/
def reEndT (cs : Chars) : Bool :=
  match kwCI (lit "END") (dropWS cs) with
  | none => false
  | some (_, r1) =>
    let semiAt := fun (r : Chars) =>
      match dropWS r with
      | ';' :: _ => true
      | _ => false
    let r2 := dropWS r1
    (match kwCI (lit "IF") r2 with
     | some (_, r3) => semiAt r3
     | none => false) ||
    (match kwCI (lit "LOOP") r2 with
     | some (_, r3) => semiAt r3
     | none => false) ||
    (match kwCI (lit "CASE") r2 with
     | some (_, r3) => semiAt r3
     | none => false) ||
    semiAt r1

/-- `reEndLabel = /^\s*END\s+\w+\s*;/i` (line 295). -/
def reEndLabelT (cs : Chars) : Bool :=
  match kwCI (lit "END") (dropWS cs) with
  | none => false
  | some (_, r1) =>
    if (takeWS r1).isEmpty then false else
    let r2 := dropWS r1
    let w := r2.takeWhile wordChar
    if w.isEmpty then false else
    match dropWS (r2.drop w.length) with
    | ';' :: _ => true
    | _ => false

/-- `reEndCase = /^\s*END\s+CASE\s*;/i` (line 291). -/
def reEndCaseT (cs : Chars) : Bool :=
  match kwCI (lit "END") (dropWS cs) with
  | none => false
  | some (_, r1) =>
    if (takeWS r1).isEmpty then false else
    match kwCI (lit "CASE") (dropWS r1) with
    | some (_, r2) =>
      match dropWS r2 with
      | ';' :: _ => true
      | _ => false
    | none => false

/-- `reSlash = /^\s*\/\s*$/` (line 296). -/
def reSlashT (cs : Chars) : Bool :=
  match dropWS cs with
  | '/' :: r => (dropWS r).isEmpty
  | _ => false

/-- `/^\s*\)\s*;?\s*$/i` (line 327). -/
def closeParenT (cs : Chars) : Bool :=
  match dropWS cs with
  | ')' :: r =>
    (match dropWS r with
     | [] => true
     | ';' :: r2 => (dropWS r2).isEmpty
     | _ => false)
  | _ => false

/-- `/\(\s*$/i` (line 453). -/
def endsOpenParenT (cs : Chars) : Bool := (trimEnd cs).getLast? = some '('

/-- `reCreate` (line 303), including the regex's fallback of the optional
`(\s+BODY)?` group when the trailing `\b` fails after `BODY`. -/
def reCreateT (cs : Chars) : Bool :=
  match kwCI (lit "CREATE") (dropWS cs) with
  | none => false
  | some (_, r1) =>
    if (takeWS r1).isEmpty then false else
    let r2 := dropWS r1
    let r3 :=
      match kwCI (lit "OR") r2 with
      | some (_, ra) =>
        if (takeWS ra).isEmpty then r2
        else
          match kwCI (lit "REPLACE") (dropWS ra) with
          | some (_, rb) => if (takeWS rb).isEmpty then r2 else dropWS rb
          | none => r2
      | none => r2
    let plain := fun (kw : Chars) =>
      match kwCI kw r3 with
      | some (_, rr) => boundAfter rr
      | none => false
    let withBody := fun (kw : Chars) =>
      match kwCI kw r3 with
      | some (_, rr) =>
        (if (takeWS rr).isEmpty then false
         else
           match kwCI (lit "BODY") (dropWS rr) with
           | some (_, rb) => boundAfter rb
           | none => false) ||
        boundAfter rr
      | none => false
    plain (lit "PROCEDURE") || plain (lit "FUNCTION") || withBody (lit "PACKAGE") ||
      plain (lit "TRIGGER") || withBody (lit "TYPE")

/-- Indentation state threaded through the engine (source lines 272–275). -/
structure EngSt where
  level : Nat
  inWhen : Bool
  caseStack : List Nat
  parenDepth : Nat
deriving Repr, DecidableEq

/-- One iteration of the engine's per-line loop (source lines 305–459). -/
def engineStepNE (tabSize : Nat) (upper : Bool) (st : EngSt) (origLine sLine : Chars) :
    EngSt × Chars :=
  let trimmedStripped := jsTrim sLine
  let trimmedOrig := jsTrim origLine
  let isEndLine := reEndT trimmedStripped || reEndLabelT trimmedStripped
  let isEndCaseLine := reEndCaseT trimmedStripped
  let isWhenThenLine :=
    startKwB (lit "WHEN") trimmedStripped && endsKwB (lit "THEN") trimmedStripped
  let isElseLine := startKwB (lit "ELSE") trimmedStripped
  let isCloseParenLine := closeParenT trimmedStripped
  let flagFire := st.inWhen && (isWhenThenLine || isElseLine || isEndLine)
  let inWhen1 := if flagFire then false else st.inWhen
  let d0 : Nat := if flagFire then 1 else 0
  let isBegin := startKwB (lit "BEGIN") trimmedStripped
  let isElsif := startKwB (lit "ELSIF") trimmedStripped
  let isExc := startKwB (lit "EXCEPTION") trimmedStripped
  let popCase := isEndCaseLine && !st.caseStack.isEmpty
  let level1 :=
    if popCase then st.caseStack.headD 0
    else
      let d :=
        if isEndLine && !isEndCaseLine then d0 + 1
        else if isBegin then 1
        else if reSlashT trimmedStripped then st.level
        else if isElsif then 1
        else if isElseLine && !st.caseStack.isEmpty then d0
        else if isElseLine then 1
        else if isExc then 1
        else d0
      st.level - d
  let stack1 := if popCase then st.caseStack.tail else st.caseStack
  let contInd := if isCloseParenLine then st.parenDepth - 1 else st.parenDepth
  let outLine :=
    sp ((level1 + contInd) * tabSize) ++
      (if upper then uppercaseKeywords trimmedOrig else trimmedOrig)
  let isDeclare := startKwB (lit "DECLARE") trimmedStripped
  let isCreate := reCreateT trimmedStripped
  let isIsInline :=
    endsKwB (lit "IS") trimmedStripped || endsKwB (lit "AS") trimmedStripped
  let isThenEnd := endsKwB (lit "THEN") trimmedStripped
  let isLoopEnd := endsKwB (lit "LOOP") trimmedStripped
  let isCaseStart := startKwB (lit "CASE") trimmedStripped
  let isReEnd := reEndT trimmedStripped
  let pushesCase :=
    if isBegin || isDeclare || isCreate ||
        (isIsInline && !isReEnd) || isThenEnd || isLoopEnd ||
        (isElseLine && !isElsif) || (isElsif && isThenEnd) || isExc ||
        isWhenThenLine then false
    else if isCaseStart && !isReEnd then true
    else containsKwB (lit "CASE") trimmedStripped &&
      !containsKwB (lit "END") trimmedStripped
  let indentAfter :=
    if isBegin then 1
    else if isDeclare then 1
    else if isCreate && isIsInline then 1
    else if isCreate then 0
    else if isIsInline && !isReEnd then 1
    else if isThenEnd then 1
    else if isLoopEnd then 1
    else if isElseLine && !isElsif then 1
    else if isElsif && isThenEnd then 1
    else if isExc then 1
    else if isWhenThenLine then 1
    else if isCaseStart && !isReEnd then 1
    else if containsKwB (lit "CASE") trimmedStripped &&
        !containsKwB (lit "END") trimmedStripped then 1
    else 0
  let stack2 := if pushesCase then level1 :: stack1 else stack1
  let inWhen2 := if isWhenThenLine then true else inWhen1
  let pd1 :=
    if endsOpenParenT trimmedStripped && !isCloseParenLine then st.parenDepth + 1
    else st.parenDepth
  let pd2 := if isCloseParenLine && pd1 > 0 then pd1 - 1 else pd1
  (⟨level1 + indentAfter, inWhen2, stack2, pd2⟩, outLine)

/-- Empty original lines short-circuit to empty output (source line 278). -/
def engineStep (tabSize : Nat) (upper : Bool) (st : EngSt) (origLine sLine : Chars) :
    EngSt × Chars :=
  if (jsTrim origLine).isEmpty then (st, [])
  else engineStepNE tabSize upper st origLine sLine

def engineGo (tabSize : Nat) (upper : Bool) : EngSt → List (Chars × Chars) → List Chars
  | _, [] => []
  | st, (o, s) :: rest =>
    let r := engineStep tabSize upper st o s
    r.2 :: engineGo tabSize upper r.1 rest

/-- Remove trailing empty lines (source lines 461–464). -/
def dropTrailingEmpties (lines : List Chars) : List Chars :=
  (lines.reverse.dropWhile List.isEmpty).reverse

/-! ## SQL alignment post-pass (source lines 466–616) -/

structure SqlBlock where
  selectCol : Int
  whereCondCol : Int
  isSubSelect : Bool

def sqlClauseKws : List Chars :=
  [lit "FROM", lit "WHERE", lit "INTO", lit "SET", lit "ORDER BY", lit "GROUP BY",
   lit "HAVING"]

def sqlCondKws : List Chars := [lit "AND", lit "OR"]

/-- First match of `/\(\s*SELECT\b/i` in the line; returns the matched text. -/
def findSubSel : Chars → Option Chars
  | [] => none
  | '(' :: rest =>
    (let ws := takeWS rest
     match kwCI (lit "SELECT") (dropWS rest) with
     | some (ssrc, r2) => if boundAfter r2 then some ('(' :: (ws ++ ssrc)) else none
     | none => none) <|> findSubSel rest
  | _ :: rest => findSubSel rest

/-- First keyword of `kws` matching `^(KW)\b/i` against `cs`. -/
def findKwAt : List Chars → Chars → Option Chars
  | [], _ => none
  | k :: ks, cs =>
    match kwCI k cs with
    | some (_, rest) => if boundAfter rest then some k else findKwAt ks cs
    | none => findKwAt ks cs

/-- `/^SELECT\b|^INSERT\b|^UPDATE\b|^DELETE\b|^MERGE\b/i` on the trimmed line. -/
def isTopSql (trimmed : Chars) : Bool :=
  (findKwAt [lit "SELECT", lit "INSERT", lit "UPDATE", lit "DELETE", lit "MERGE"]
    trimmed).isSome

/-- Walk back over already-processed lines (most recent first) and test
whether the nearest non-empty one starts with `INSERT` (lines 527–532). -/
def insertPrev : List Chars → Bool
  | [] => false
  | l :: rest =>
    if (jsTrim l).isEmpty then insertPrev rest
    else
      let up := (jsTrim l).map upChar
      match dropLit (lit "INSERT") up with
      | some r => boundAfter r
      | none => false

def padTo (w : Nat) (kw : Chars) : Chars := kw ++ sp (w - kw.length)

/-- `/;\s*$/` or `/\)\s*LOOP\s*$/i` (the end-of-SQL-block test, line 611;
the doubled-paren variant in the disjunction is subsumed by the single one). -/
def sqlBlockEnds (trimmed : Chars) : Bool :=
  (trimEnd trimmed).getLast? = some ';' ||
  (let t := trimEnd trimmed
   if t.length < 4 then false
   else
     (dropLitCI (lit "LOOP") (t.drop (t.length - 4))).isSome &&
       (trimEnd (t.take (t.length - 4))).getLast? = some ')')

/-- The rewrite applied to one line inside an open SQL block
(source lines 516–606); returns the rewritten line and the updated block. -/
def sqlRewrite (blk : SqlBlock) (accRev : List Chars) (line : Chars) :
    Chars × SqlBlock :=
  let trimmed := trimStart line
  let leadingSpaces := line.take (line.length - trimmed.length)
  let clause0 := findKwAt sqlClauseKws trimmed
  let clause :=
    match clause0 with
    | some kw => if kw = lit "INTO" && insertPrev accRev then none else some kw
    | none => none
  let cond := if clause.isSome then none else findKwAt sqlCondKws trimmed
  match clause, cond with
  | some kw, _ =>
    let kwText := (trimmed.take kw.length).map upChar
    let krest := dropWS (trimmed.drop kw.length)
    if blk.isSubSelect then
      let line' := sp blk.selectCol.toNat ++ padTo 7 kwText ++ krest
      let blk' :=
        if kw = lit "WHERE" then { blk with whereCondCol := blk.selectCol + 7 }
        else blk
      (line', blk')
    else (leadingSpaces ++ padTo 7 kwText ++ krest, blk)
  | none, some kw =>
    let kwText := (trimmed.take kw.length).map upChar
    let krest := dropWS (trimmed.drop kw.length)
    if blk.isSubSelect then
      if blk.whereCondCol > 0 then
        (sp blk.whereCondCol.toNat ++ padTo 4 kwText ++ krest, blk)
      else (sp blk.selectCol.toNat ++ padTo 7 kwText ++ krest, blk)
    else (leadingSpaces ++ padTo 7 kwText ++ krest, blk)
  | none, none =>
    if startKwB (lit "SELECT") trimmed && !blk.isSubSelect then
      let kwText := (trimmed.take 6).map upChar
      let krest := dropWS (trimmed.drop 6)
      (leadingSpaces ++ padTo 7 kwText ++ krest, blk)
    else (line, blk)

/-- The SQL alignment pass (source lines 486–616). -/
def sqlStep (cur : Option SqlBlock) (stack : List SqlBlock) (accRev : List Chars)
    (line : Chars) : Option SqlBlock × List SqlBlock × Chars :=
  match findSubSel line with
  | some mtext =>
    let base : Int :=
      match indexOfSub mtext line with
      | some i => (i : Int)
      | none => -1
    let sIdx : Int :=
      match indexOfSub ['S'] mtext with
      | some i => (i : Int)
      | none => -1
    let stack' := match cur with
      | some b => b :: stack
      | none => stack
    let line' :=
      match indexOfSub (lit "SELECT") (line.map upChar) with
      | some selIdx =>
        line.take selIdx ++ lit "SELECT " ++ trimStart (line.drop (selIdx + 6))
      | none => line
    (some ⟨base + sIdx, -1, true⟩, stack', line')
  | none =>
    let trimmed := trimStart line
    let cur1 := if cur.isNone && isTopSql trimmed then some ⟨-1, -1, false⟩ else cur
    let line' :=
      match cur1 with
      | none => line
      | some blk => (sqlRewrite blk accRev line).1
    let cur2 :=
      match cur1 with
      | none => none
      | some blk => some (sqlRewrite blk accRev line).2
    if sqlBlockEnds trimmed && cur2.isSome then
      match stack with
      | b :: bs => (some b, bs, line')
      | [] => (none, [], line')
    else (cur2, stack, line')

def sqlAlignGo : Option SqlBlock → List SqlBlock → List Chars → List Chars → List Chars
  | _, _, accRev, [] => accRev.reverse
  | cur, stack, accRev, line :: rest =>
    let r := sqlStep cur stack accRev line
    sqlAlignGo r.1 r.2.1 (r.2.2 :: accRev) rest

/-! ## Parenthesis continuation alignment (source lines 618–687) -/

/-- Line-start structural keywords that are never realigned (line 639). -/
def isSqlOrBlockKw (cs : Chars) : Bool :=
  (findKwAt
    [lit "SELECT", lit "FROM", lit "WHERE", lit "INTO", lit "SET", lit "HAVING",
     lit "AND", lit "OR", lit "BEGIN", lit "END", lit "LOOP", lit "IF", lit "THEN",
     lit "ELSE", lit "ELSIF", lit "EXCEPTION", lit "WHEN", lit "DECLARE",
     lit "CASE", lit "FOR"] cs).isSome ||
  (match kwCI (lit "ORDER") cs with
   | some (_, r) =>
     if (takeWS r).isEmpty then false
     else
       match kwCI (lit "BY") (dropWS r) with
       | some (_, r2) => boundAfter r2
       | none => false
   | none => false) ||
  (match kwCI (lit "GROUP") cs with
   | some (_, r) =>
     if (takeWS r).isEmpty then false
     else
       match kwCI (lit "BY") (dropWS r) with
       | some (_, r2) => boundAfter r2
       | none => false
   | none => false)

/-- Character scan of one line for unmatched parentheses, honouring quoted
strings (source lines 652–681).  Returns the same-line open columns (newest
first) and the remaining outer stack. -/
def pScanGo : Nat → Chars → Nat → Bool → Char → List Nat → List Nat → List Nat × List Nat
  | 0, _, _, _, _, lo, outer => (lo, outer)
  | _ + 1, [], _, _, _, lo, outer => (lo, outer)
  | fuel + 1, c :: rest, pci, inStr, sch, lo, outer =>
    if inStr then
      if c = sch then
        match rest with
        | c2 :: rest2 =>
          if c2 = sch then pScanGo fuel rest2 (pci + 2) true sch lo outer
          else pScanGo fuel rest (pci + 1) false sch lo outer
        | [] => pScanGo fuel rest (pci + 1) false sch lo outer
      else pScanGo fuel rest (pci + 1) true sch lo outer
    else if c = '\'' || c = '"' then pScanGo fuel rest (pci + 1) true c lo outer
    else if c = '(' then
      let contentStart := pci + 1 + (rest.takeWhile (· = ' ')).length
      pScanGo fuel rest (pci + 1) false sch (contentStart :: lo) outer
    else if c = ')' then
      match lo with
      | _ :: lt => pScanGo fuel rest (pci + 1) false sch lt outer
      | [] =>
        match outer with
        | _ :: ot => pScanGo fuel rest (pci + 1) false sch [] ot
        | [] => pScanGo fuel rest (pci + 1) false sch [] []
    else pScanGo fuel rest (pci + 1) false sch lo outer

def pScan (cs : Chars) (pci : Nat) (inStr : Bool) (sch : Char) (lo outer : List Nat) :
    List Nat × List Nat :=
  pScanGo (cs.length + 1) cs pci inStr sch lo outer

/-- The parenthesis continuation pass (source lines 628–687). -/
def parenAlignGo : List Nat → List Chars → List Chars → List Chars
  | _, accRev, [] => accRev.reverse
  | stack, accRev, line :: rest =>
    let paTrimmed := trimStart line
    if paTrimmed.isEmpty then parenAlignGo stack (line :: accRev) rest
    else
      let line' :=
        if !stack.isEmpty &&
            !(match paTrimmed with
              | ')' :: _ => true
              | _ => false) &&
            !isSqlOrBlockKw paTrimmed then
          sp (stack.headD 0) ++ paTrimmed
        else line
      let r := pScan line' 0 false ' ' [] stack
      parenAlignGo (r.1 ++ r.2) (line' :: accRev) rest

/-! ## Trailing-closer join pass (source lines 689–723) -/

/-- Append `add` to the nearest preceding non-blank line of the reversed
accumulator (`finalResult[back] += trTrimmed`, lines 710–716). -/
def appendBack : List Chars → Chars → Option (List Chars)
  | [], _ => none
  | h :: tl, add =>
    if !(jsTrim h).isEmpty then some ((h ++ add) :: tl)
    else
      match appendBack tl add with
      | some tl' => some (h :: tl')
      | none => none

def joinClosers : List Chars → List Chars → List Chars
  | accRev, [] => accRev.reverse
  | accRev, line :: rest =>
    let t := jsTrim line
    if !t.isEmpty && t.all (fun c => c = ')' || c = ';' || jsWS c) then
      match appendBack accRev t with
      | some accRev' => joinClosers accRev' rest
      | none => joinClosers (line :: accRev) rest
    else joinClosers (line :: accRev) rest

/-! ## `formatPlsql` (source lines 116–726) -/

/-- Line-ending normalization (source line 126). -/
def normalizeNL (cs : Chars) : Chars :=
  (replaceAllSub (lit "\r\n") (lit "\n") (cs.length + 1) cs).map
    fun c => if c = '\r' then '\n' else c

/-- `formatPlsql` over character lists, with explicit options. -/
def formatPlsqlL (tabSize : Nat) (upper : Bool) (cs : Chars) : Chars :=
  if (jsTrim cs).isEmpty then cs
  else
    let code0 := normalizeNL cs
    let p := phGo (tokenizeL code0) 0
    let code1 := restGo p.2 0 (splitRules p.1)
    let stripped := stripNonCodeL code1
    let pairs := zipPad (splitNL code1) (splitNL stripped)
    let result0 := engineGo tabSize upper ⟨0, false, [], 0⟩ pairs
    let result1 := dropTrailingEmpties result0
    let result2 := sqlAlignGo none [] [] result1
    let result3 := parenAlignGo [] [] result2
    joinNL (joinClosers [] result3) ++ ['\n']

/-- `formatPlsql` with the default options (`tabSize = 2`,
`upperCaseKeywords = true`). -/
def formatPlsql (s : String) : String := ⟨formatPlsqlL 2 true s.data⟩

/-! ## A family of well-formed nested IF blocks (for the balanced-indent
analysis of the Indentation Engine) -/

/-- Well-formed block programs: a plain statement, an `IF … THEN / END IF;`
block around a body, or two programs in sequence.  Every opener has a
matching closer by construction. -/
inductive IfBlk where
  | stmt
  | ifb (body : IfBlk)
  | seq (a b : IfBlk)

/-- The split-form lines of a block program, as the engine receives them. -/
def renderIf : IfBlk → List Chars
  | .stmt => [lit "y := 1;"]
  | .ifb b => lit "IF x > 0 THEN" :: (renderIf b ++ [lit "END IF;"])
  | .seq a b => renderIf a ++ renderIf b

/-- The same lines with explicit indentation: the body one level deeper, and
the closer of every block at exactly its opener's indentation. -/
def renderIfOut : IfBlk → Nat → List Chars
  | .stmt, d => [sp (d * 2) ++ lit "y := 1;"]
  | .ifb b, d =>
    (sp (d * 2) ++ lit "IF x > 0 THEN") ::
      (renderIfOut b (d + 1) ++ [sp (d * 2) ++ lit "END IF;"])
  | .seq a b, d => renderIfOut a d ++ renderIfOut b d

/-- Pair each line with itself (these lines contain no strings or comments,
so the code mask leaves them unchanged). -/
def selfPairs (ls : List Chars) : List (Chars × Chars) := ls.map fun l => (l, l)

/-- Number of leading space characters of a line. -/
def leadCount (cs : Chars) : Nat := (cs.takeWhile (· = ' ')).length

/-- No carriage-return character occurs in the list. -/
def NoCR (cs : Chars) : Prop := ∀ c ∈ cs, c ≠ '\r'

/-! ## Theorems -/

theorem tokGo_succ (fuel : Nat) (bufRev cs : Chars) :
    tokGo (fuel + 1) bufRev cs =
      match scanSpecial cs with
      | some (seg, rest) =>
        if bufRev.isEmpty then seg :: tokGo fuel [] rest
        else ⟨.code, bufRev.reverse⟩ :: seg :: tokGo fuel [] rest
      | none =>
        match cs with
        | [] => if bufRev.isEmpty then [] else [⟨.code, bufRev.reverse⟩]
        | c :: rest => tokGo fuel (c :: bufRev) rest := rfl

theorem scanSpecial_spec {cs : Chars} {seg : Segment} {rest : Chars}
    (h : scanSpecial cs = some (seg, rest)) :
    seg.value ≠ [] ∧ seg.value ++ rest = cs := by
  unfold scanSpecial at h
  split at h
  · cases h
    refine ⟨by simp, ?_⟩
    simp [List.takeWhile_append_dropWhile]
  · split at h
    · cases h
      refine ⟨by simp, ?_⟩
      simp [List.take_append_drop]
    · cases h
      simp
  · cases h
    refine ⟨by simp, ?_⟩
    simp [List.take_append_drop]
  · split at h
    · split at h
      · cases h
        refine ⟨by simp, ?_⟩
        simp [List.take_append_drop]
      · cases h
        simp
    · cases h
  · cases h

theorem scanSpecial_shrink {cs : Chars} {seg : Segment} {rest : Chars}
    (h : scanSpecial cs = some (seg, rest)) : rest.length < cs.length := by
  obtain ⟨hne, hcov⟩ := scanSpecial_spec h
  have hlen := congrArg List.length hcov
  simp only [List.length_append] at hlen
  have hpos : 0 < seg.value.length := List.length_pos.mpr hne
  omega

theorem concatValues_cons (s : Segment) (l : List Segment) :
    concatValues (s :: l) = s.value ++ concatValues l := by
  simp [concatValues]

theorem tokGo_concat (fuel : Nat) :
    ∀ cs bufRev : Chars, cs.length < fuel →
      concatValues (tokGo fuel bufRev cs) = bufRev.reverse ++ cs := by
  induction fuel with
  | zero => intro cs bufRev h; omega
  | succ n ih =>
    intro cs bufRev hlen
    cases hsc : scanSpecial cs with
    | some val =>
      obtain ⟨seg, rest⟩ := val
      obtain ⟨hne, hcov⟩ := scanSpecial_spec hsc
      have hlt := scanSpecial_shrink hsc
      rw [tokGo_succ]
      simp only [hsc]
      by_cases hb : bufRev.isEmpty
      · have hb' : bufRev = [] := by simpa [List.isEmpty_iff] using hb
        subst hb'
        simp only [List.isEmpty_nil, if_pos, concatValues_cons, List.reverse_nil,
          List.nil_append]
        rw [ih rest [] (by omega)]
        simpa using hcov
      · simp only [hb, if_neg, Bool.false_eq_true, not_false_iff, concatValues_cons]
        rw [ih rest [] (by omega)]
        simp [← hcov]
    | none =>
      cases cs with
      | nil =>
        rw [tokGo_succ]
        simp only [hsc]
        by_cases hb : bufRev.isEmpty
        · have hb' : bufRev = [] := by simpa [List.isEmpty_iff] using hb
          subst hb'
          simp [concatValues]
        · simp [hb, concatValues]
      | cons c rest =>
        rw [tokGo_succ]
        simp only [hsc]
        rw [ih rest (c :: bufRev) (by simp at hlen; omega)]
        simp

/-- C1: concatenating the `value` fields of all segments returned by
`tokenize` reconstructs the input exactly — the segment sequence covers the
input with no gaps or overlaps, including unterminated comments and
(q-)quoted strings. -/
theorem C1_tokenize_roundtrip (s : String) : concatValues (tokenize s) = s.data := by
  unfold tokenize tokenizeL
  simpa using tokGo_concat (s.data.length + 1) s.data [] (by omega)

/-- Relation between a masked character and the original one. -/
def MaskR (b a : Char) : Prop := b = a ∨ (a ≠ '\n' ∧ b = ' ')

theorem maskSeg_rel (seg : Segment) : List.Forall₂ MaskR (maskSeg seg) seg.value := by
  unfold maskSeg
  split
  · exact (List.forall₂_same).mpr fun x _ => Or.inl rfl
  · induction seg.value with
    | nil => simp
    | cons c t ih =>
      refine List.Forall₂.cons ?_ ih
      unfold maskCh MaskR
      by_cases hc : c = '\n'
      · simp [hc]
      · simp [hc]

theorem maskTokens_rel (segs : List Segment) :
    List.Forall₂ MaskR ((segs.map maskSeg).flatten) (concatValues segs) := by
  induction segs with
  | nil => simp [concatValues]
  | cons s l ih =>
    rw [concatValues_cons]
    simpa using List.rel_append (maskSeg_rel s) ih

theorem stripNonCodeL_rel (cs : Chars) :
    List.Forall₂ MaskR (stripNonCodeL cs) cs := by
  have h := maskTokens_rel (tokenizeL cs)
  have hrt : concatValues (tokenizeL cs) = cs := by
    unfold tokenizeL
    simpa using tokGo_concat (cs.length + 1) cs [] (by omega)
  rw [hrt] at h
  exact h

/-- C2: `stripNonCode` preserves the length of its input, and every newline
position of the input is a newline in the masked output (non-code segments
are replaced character-by-character with spaces, newlines preserved; code
segments pass through verbatim). -/
theorem C2_stripNonCode_mask (s : String) :
    (stripNonCode s).length = s.length ∧
    ∀ i : Nat, s.data.getD i ' ' = '\n' → (stripNonCode s).data.getD i ' ' = '\n' := by
  have hrel := stripNonCodeL_rel s.data
  have hlen : (stripNonCodeL s.data).length = s.data.length := List.Forall₂.length_eq hrel
  constructor
  · exact hlen
  · intro i hi
    have hibound : i < s.data.length := by
      by_contra hge
      rw [List.getD_eq_default _ _ (by omega)] at hi
      exact absurd hi (by decide)
    have hb : i < (stripNonCodeL s.data).length := by omega
    have hget := List.forall₂_iff_get.mp hrel |>.2 i hb (by omega)
    show (stripNonCodeL s.data).getD i ' ' = '\n'
    rw [List.getD_eq_getElem _ _ hb]
    rw [List.getD_eq_getElem _ _ hibound] at hi
    rcases hget with heq | ⟨hne, _⟩
    · simpa [List.get_eq_getElem] using heq.trans (by simpa [List.get_eq_getElem] using hi)
    · exact absurd (by simpa [List.get_eq_getElem] using hi) hne

theorem C2_stripNonCode_mask_witness :
    ("a\n-- b".data.getD 1 ' ' = '\n') ∧ (stripNonCode "a\n-- b").data.getD 1 ' ' = '\n' :=
  ⟨by decide, (C2_stripNonCode_mask "a\n-- b").2 1 (by decide)⟩

/-- C9: every iteration of the tokenizer's scan loop strictly advances the
scan position — whenever the dispatcher consumes a special segment, the
remaining input is strictly shorter, and the consumed segment followed by the
remainder is exactly the input (so unterminated comments and literals are
consumed to end-of-input and the loop always terminates, for arbitrary,
possibly malformed input). -/
theorem C9_scan_strictly_advances (cs : Chars) (seg : Segment) (rest : Chars)
    (h : scanSpecial cs = some (seg, rest)) :
    rest.length < cs.length ∧ seg.value ++ rest = cs :=
  ⟨scanSpecial_shrink h, (scanSpecial_spec h).2⟩

theorem C9_scan_strictly_advances_witness :
    (([] : Chars).length < "/* unterminated".data.length) ∧
      ("/* unterminated".data ++ [] = "/* unterminated".data) :=
  C9_scan_strictly_advances "/* unterminated".data
    ⟨.blockComment, "/* unterminated".data⟩ [] (by decide)

/-- C4 counterexample: applying the splitter rule sequence twice to
`"f(x; END IF; y := 1)"` splits further than applying it once — rule 6 moves
`END IF;` to a fresh line whose semicolon rule 2 then splits on the second
run (on the first run that semicolon sat at parenthesis depth 1). -/
theorem C4_splitter_not_idempotent :
    splitRules (splitRules (lit "f(x; END IF; y := 1)")) ≠
      splitRules (lit "f(x; END IF; y := 1)") := by decide

/-- C4 (amended): the rule sequence is not idempotent on all inputs; it is
idempotent on well-structured one-statement-per-line text, e.g. on its own
output for `"IF x > 0 THEN y := 1; END IF;"`. -/
theorem C4_splitter_idempotent_on_split_form :
    splitRules (splitRules (lit "IF x > 0 THEN y := 1; END IF;")) =
      splitRules (lit "IF x > 0 THEN y := 1; END IF;") ∧
    splitRules (lit "IF x > 0 THEN y := 1; END IF;") =
      lit "IF x > 0 THEN\ny := 1;\nEND IF;" := by
  constructor
  · decide
  · decide

/-- C3 counterexample: `formatPlsql` does not leave every string literal
byte-for-byte unchanged. Two distinct stages can rewrite literal content:
for `x := '(select';` the query-alignment post-pass matches the
`(\s*SELECT` pattern inside the string literal and rewrites its content to
`(SELECT ` (upper-cased, padding space inserted), so the original literal no
longer occurs in the output; and for `x := 'a\nbegin';` the per-line
keyword-casing step upper-cases `begin` inside the literal, because the
literal spans two output lines and each line is cased independently of the
tokenizer. -/
theorem C3_literal_modified_counterexample :
    (formatPlsql "x := '(select';" = "x := '(SELECT ';\n" ∧
      indexOfSub (lit "'(select'") (lit "x := '(SELECT ';\n") = none) ∧
    formatPlsql "x := 'a\nbegin';" = "x := 'a\nBEGIN';\n" := by
  refine ⟨⟨?_, ?_⟩, ?_⟩
  · rfl
  · rfl
  · rfl

/-- C3 (amended): literal content is not preserved in general — the
query-alignment post-pass may rewrite a literal whose content matches an
embedded-query pattern, and the per-line keyword-casing step rewrites the
interior of a literal that spans multiple lines; for the spec's example
`x := 'BEGIN END IF';` the literal survives byte-for-byte. -/
theorem C3_literal_preserved_example :
    formatPlsql "x := 'BEGIN END IF';" = "x := 'BEGIN END IF';\n" ∧
    indexOfSub (lit "'BEGIN END IF'") (lit "x := 'BEGIN END IF';\n") = some 5 := by
  constructor
  · rfl
  · rfl

/-- C6 counterexample: for `"f(\n\n);"` the closer-join pass appends `);` to
`f(` across the interior blank line, leaving that blank line trailing, so the
result ends in two newline characters, not exactly one. -/
theorem C6_trailing_newline_counterexample :
    formatPlsql "f(\n\n);" = "f();\n\n" ∧
    (lit "f();\n\n").getLast? = some '\n' ∧
    (lit "f();\n\n").dropLast.getLast? = some '\n' := by
  refine ⟨by rfl, by decide, by decide⟩

/-- C6 (amended): empty or whitespace-only input is returned unchanged, and
every other input yields a result ending in at least one newline (the
closer-join pass can leave a trailing blank line, so exactly one is not
guaranteed). -/
theorem C6_empty_and_trailing_newline (s : String) :
    (jsTrim s.data = [] → formatPlsql s = s) ∧
    (jsTrim s.data ≠ [] → (formatPlsql s).data.getLast? = some '\n') := by
  constructor
  · intro h
    show (⟨formatPlsqlL 2 true s.data⟩ : String) = s
    unfold formatPlsqlL
    rw [if_pos (by simp [h])]
  · intro h
    show (formatPlsqlL 2 true s.data).getLast? = some '\n'
    unfold formatPlsqlL
    rw [if_neg (by simp [h])]
    exact List.getLast?_concat _

theorem C6_empty_and_trailing_newline_witness :
    formatPlsql "  \n " = "  \n " ∧
      (formatPlsql "x := 1;").data.getLast? = some '\n' :=
  ⟨(C6_empty_and_trailing_newline "  \n ").1 (by decide),
   (C6_empty_and_trailing_newline "x := 1;").2 (by decide)⟩

/-- C7 counterexample: for the single-line case expression
`x := CASE WHEN a = 1 THEN 'A' WHEN a = 2 THEN 'B' END;` followed by
`y := 42;`, the splitter only breaks after the first `THEN` and the engine
never pushes or pops a branch-stack entry (the `THEN`-classification wins,
and the `END;` sits mid-line), so the sibling statement is emitted one level
deep (two spaces), not at the pre-`CASE` level (zero spaces). -/
theorem C7_inline_case_sibling_counterexample :
    formatPlsql "x := CASE WHEN a = 1 THEN 'A' WHEN a = 2 THEN 'B' END;\ny := 42;" =
      "x := CASE WHEN a = 1 THEN\n  'A' WHEN a = 2 THEN 'B' END;\n  y := 42;\n" ∧
    leadCount ((splitNL
      (lit "x := CASE WHEN a = 1 THEN\n  'A' WHEN a = 2 THEN 'B' END;\n  y := 42;\n")).getD 2 []) = 2 ∧
    leadCount ((splitNL
      (lit "x := CASE WHEN a = 1 THEN\n  'A' WHEN a = 2 THEN 'B' END;\n  y := 42;\n")).getD 0 []) = 0 := by
  refine ⟨by rfl, by decide, by decide⟩

/-- C7 (amended): when the case expression is already split across lines
(`x := CASE` / `WHEN … THEN` / branch values / `END;`), the sibling
statement does return to the level that held before the case expression
opened — via the branch-body dedent plus the terminator dedent; the branch
stack entry pushed at the inline `CASE` is never popped. -/
theorem C7_multiline_case_sibling_level :
    formatPlsql "x := CASE\nWHEN a = 1 THEN\n'A'\nWHEN a = 2 THEN\n'B'\nEND;\ny := 42;" =
      "x := CASE\n  WHEN a = 1 THEN\n    'A'\n  WHEN a = 2 THEN\n    'B'\nEND;\ny := 42;\n" ∧
    leadCount ((splitNL
      (lit "x := CASE\n  WHEN a = 1 THEN\n    'A'\n  WHEN a = 2 THEN\n    'B'\nEND;\ny := 42;\n")).getD 6 []) = 0 := by
  refine ⟨by rfl, by decide⟩

/-- C8 counterexample: the formatted nested call has no separate
closing-parenthesis lines at all — the closer-join pass splices both onto
the inner-argument line, so the output has exactly three non-empty lines and
no line consisting only of closers. -/
theorem C8_nested_call_counterexample :
    splitNL (formatPlsql
        "owa_util.redirect_url(\napex_page.get_url (\np_page => :x\n)\n);").data =
      [lit "owa_util.redirect_url(",
       sp 22 ++ lit "apex_page.get_url (",
       sp 41 ++ lit "p_page => :x));",
       []] := by rfl

/-- C8 (amended): the three call lines do receive strictly increasing
indentation — the outer call at column 0, the inner call realigned to the
column after the outer `(`, the argument to the column after the inner `(` —
but the two closing-parenthesis lines are joined onto the argument line
rather than emitted at decreasing levels. -/
theorem C8_nested_call_layout :
    formatPlsql "owa_util.redirect_url(\napex_page.get_url (\np_page => :x\n)\n);" =
      ⟨lit "owa_util.redirect_url(" ++ '\n' ::
        (sp 22 ++ lit "apex_page.get_url (") ++ '\n' ::
        (sp 41 ++ lit "p_page => :x));") ++ ['\n']⟩ ∧
    leadCount (lit "owa_util.redirect_url(") = 0 ∧
    leadCount (sp 22 ++ lit "apex_page.get_url (") = 22 ∧
    leadCount (sp 41 ++ lit "p_page => :x));") = 41 := by
  refine ⟨by rfl, by decide, by decide, by decide⟩

/-- C5 counterexample: for the well-formed input
`CASE / WHEN a THEN / IF b THEN / x := 1; / END IF; / z := 1; / END CASE;`
the `inside-branch-body` flag set by `WHEN a THEN` is still live when
`END IF;` arrives, so that closer dedents twice (flag dedent plus closer
dedent) and is printed at two spaces while its opener `IF b THEN` sits at
four — the closer's indent does not equal its opener's. -/
theorem C5_balanced_indent_counterexample :
    formatPlsql "CASE\nWHEN a THEN\nIF b THEN\nx := 1;\nEND IF;\nz := 1;\nEND CASE;" =
      "CASE\n  WHEN a THEN\n    IF b THEN\n      x := 1;\n  END IF;\n  z := 1;\nEND CASE;\n" ∧
    leadCount ((splitNL
      (lit "CASE\n  WHEN a THEN\n    IF b THEN\n      x := 1;\n  END IF;\n  z := 1;\nEND CASE;\n")).getD 2 []) = 4 ∧
    leadCount ((splitNL
      (lit "CASE\n  WHEN a THEN\n    IF b THEN\n      x := 1;\n  END IF;\n  z := 1;\nEND CASE;\n")).getD 4 []) = 2 := by
  refine ⟨by rfl, by decide, by decide⟩

theorem engineGo_cons (t : Nat) (u : Bool) (st : EngSt) (o s : Chars)
    (rest : List (Chars × Chars)) :
    engineGo t u st ((o, s) :: rest) =
      (engineStep t u st o s).2 :: engineGo t u (engineStep t u st o s).1 rest := rfl

theorem selfPairs_nil : selfPairs [] = [] := rfl

theorem engineGo_nil (t : Nat) (u : Bool) (st : EngSt) : engineGo t u st [] = [] := rfl

theorem selfPairs_cons (l : Chars) (ls : List Chars) :
    selfPairs (l :: ls) = (l, l) :: selfPairs ls := rfl

theorem selfPairs_append (a b : List Chars) :
    selfPairs (a ++ b) = selfPairs a ++ selfPairs b := by
  simp [selfPairs]

/-- Engine transition on a plain statement line: state unchanged, line
indented at the current level. -/
theorem stepStmtLine (l : Nat) (cs : List Nat) :
    engineStep 2 true ⟨l, false, cs, 0⟩ (lit "y := 1;") (lit "y := 1;") =
      (⟨l, false, cs, 0⟩, sp (l * 2) ++ lit "y := 1;") := rfl

/-- Engine transition on `IF x > 0 THEN`: printed at the current level, the
level for subsequent lines grows by one (trailing-`THEN` classification). -/
theorem stepIfLine (l : Nat) (cs : List Nat) :
    engineStep 2 true ⟨l, false, cs, 0⟩ (lit "IF x > 0 THEN") (lit "IF x > 0 THEN") =
      (⟨l + 1, false, cs, 0⟩, sp (l * 2) ++ lit "IF x > 0 THEN") := rfl

/-- Engine transition on `END IF;`: dedents one level before printing. -/
theorem stepEndIfLine (l : Nat) (cs : List Nat) :
    engineStep 2 true ⟨l + 1, false, cs, 0⟩ (lit "END IF;") (lit "END IF;") =
      (⟨l, false, cs, 0⟩, sp (l * 2) ++ lit "END IF;") := rfl

theorem engineGo_renderIf (b : IfBlk) :
    ∀ (l : Nat) (cs : List Nat) (rest : List (Chars × Chars)),
      engineGo 2 true ⟨l, false, cs, 0⟩ (selfPairs (renderIf b) ++ rest) =
        renderIfOut b l ++ engineGo 2 true ⟨l, false, cs, 0⟩ rest := by
  induction b with
  | stmt =>
    intro l cs rest
    show engineGo 2 true ⟨l, false, cs, 0⟩ ((lit "y := 1;", lit "y := 1;") :: rest) = _
    rw [engineGo_cons, stepStmtLine]
    simp [renderIfOut]
  | ifb b ih =>
    intro l cs rest
    have hr : selfPairs (renderIf (IfBlk.ifb b)) ++ rest =
        (lit "IF x > 0 THEN", lit "IF x > 0 THEN") ::
          (selfPairs (renderIf b) ++
            ((lit "END IF;", lit "END IF;") :: rest)) := by
      simp [renderIf, selfPairs_cons, selfPairs_append, selfPairs_nil]
    rw [hr, engineGo_cons, stepIfLine]
    dsimp only
    rw [ih (l + 1) cs ((lit "END IF;", lit "END IF;") :: rest)]
    rw [engineGo_cons, stepEndIfLine]
    simp [renderIfOut]
  | seq a b iha ihb =>
    intro l cs rest
    have hr : selfPairs (renderIf (IfBlk.seq a b)) ++ rest =
        selfPairs (renderIf a) ++ (selfPairs (renderIf b) ++ rest) := by
      simp [renderIf, selfPairs_append]
    rw [hr, iha, ihb]
    simp [renderIfOut]

/-- C5 (amended): the balanced-indent property fails in general (see the
counterexample), but holds for the Indentation Engine on well-formed block
programs whose blocks do not open inside a `WHEN … THEN` branch body: for
every program of nested/sequenced `IF x > 0 THEN … END IF;` blocks, the
engine emits exactly `renderIfOut`, in which each closer carries the same
indentation prefix as its matching opener and each body sits one level
deeper. -/
theorem C5_engine_balanced_nested_if (b : IfBlk) :
    engineGo 2 true ⟨0, false, [], 0⟩ (selfPairs (renderIf b)) = renderIfOut b 0 := by
  have h := engineGo_renderIf b 0 [] []
  simpa [engineGo_nil] using h

/-! ### No-carriage-return preservation kit (claim C10) -/

theorem noCR_of_sub {a b : Chars} (hsub : ∀ c ∈ a, c ∈ b) (hb : NoCR b) : NoCR a :=
  fun c hc => hb c (hsub c hc)

theorem noCR_append {a b : Chars} (ha : NoCR a) (hb : NoCR b) : NoCR (a ++ b) := by
  intro c hc
  rcases List.mem_append.mp hc with h | h
  · exact ha c h
  · exact hb c h

theorem noCR_cons {c : Char} {l : Chars} (hc : c ≠ '\r') (hl : NoCR l) :
    NoCR (c :: l) := by
  intro d hd
  rcases List.mem_cons.mp hd with rfl | h
  · exact hc
  · exact hl d h

theorem noCR_take {l : Chars} (h : NoCR l) (n : Nat) : NoCR (l.take n) :=
  noCR_of_sub (fun c hc => (List.take_sublist n l).subset hc) h

theorem noCR_drop {l : Chars} (h : NoCR l) (n : Nat) : NoCR (l.drop n) :=
  noCR_of_sub (fun c hc => (List.drop_sublist n l).subset hc) h

theorem noCR_takeWhile {l : Chars} (h : NoCR l) (p : Char → Bool) :
    NoCR (l.takeWhile p) :=
  noCR_of_sub (fun c hc => (List.takeWhile_sublist p).subset hc) h

theorem noCR_dropWhile {l : Chars} (h : NoCR l) (p : Char → Bool) :
    NoCR (l.dropWhile p) :=
  noCR_of_sub (fun c hc => (List.dropWhile_sublist p).subset hc) h

theorem noCR_trimStart {l : Chars} (h : NoCR l) : NoCR (trimStart l) :=
  noCR_dropWhile h jsWS

theorem noCR_trimEnd {l : Chars} (h : NoCR l) : NoCR (trimEnd l) := by
  unfold trimEnd
  refine noCR_of_sub (fun c hc => ?_) h
  have := (List.dropWhile_sublist jsWS (l := l.reverse)).subset (List.mem_reverse.mp hc)
  exact List.mem_reverse.mp this

theorem noCR_jsTrim {l : Chars} (h : NoCR l) : NoCR (jsTrim l) :=
  noCR_trimEnd (noCR_trimStart h)

theorem noCR_sp (n : Nat) : NoCR (sp n) := by
  intro c hc
  have := List.eq_of_mem_replicate hc
  subst this
  decide

theorem noCR_lit_of_all {s : String} (h : (lit s).all (fun c => !(c == '\r')) = true) :
    NoCR (lit s) := by
  intro c hc
  have := List.all_eq_true.mp h c hc
  simpa using this

/-- The line-ending normalization step removes every carriage return. -/
theorem noCR_normalizeNL (cs : Chars) : NoCR (normalizeNL cs) := by
  intro c hc
  unfold normalizeNL at hc
  rcases List.mem_map.mp hc with ⟨a, _, rfl⟩
  split
  · decide
  · assumption

theorem tokenizeL_concat (cs : Chars) : concatValues (tokenizeL cs) = cs := by
  unfold tokenizeL
  simpa using tokGo_concat (cs.length + 1) cs [] (by omega)

theorem tokenizeL_value_sub {cs : Chars} {seg : Segment} (h : seg ∈ tokenizeL cs) :
    ∀ c ∈ seg.value, c ∈ cs := by
  intro c hc
  rw [← tokenizeL_concat cs]
  unfold concatValues
  exact List.mem_flatten.mpr ⟨seg.value, List.mem_map_of_mem Segment.value h, hc⟩

theorem noCR_forall₂ : ∀ {b a : Chars}, List.Forall₂ MaskR b a → NoCR a → NoCR b := by
  intro b a hrel
  induction hrel with
  | nil => intro _ c hc; cases hc
  | cons hr _ ih =>
    intro ha c hc
    rcases List.mem_cons.mp hc with rfl | hcm
    · rcases hr with heq | ⟨_, heq⟩
      · rw [heq]
        exact ha _ (List.mem_cons_self _ _)
      · rw [heq]
        decide
    · exact ih (fun d hd => ha d (List.mem_cons_of_mem _ hd)) c hcm

theorem noCR_stripNonCodeL {cs : Chars} (h : NoCR cs) : NoCR (stripNonCodeL cs) :=
  noCR_forall₂ (stripNonCodeL_rel cs) h

theorem ofNat_digit_ne_cr {m : Nat} (hm : m < 10) : Char.ofNat (48 + m) ≠ '\r' := by
  interval_cases m <;> decide

theorem noCR_natCharsGo (f n : Nat) : NoCR (natCharsGo f n) := by
  induction f generalizing n with
  | zero => intro c hc; cases hc
  | succ f ih =>
    rw [natCharsGo]
    split
    · exact noCR_cons (ofNat_digit_ne_cr (by omega)) (fun c hc => absurd hc (by simp))
    · exact noCR_append (ih (n / 10))
        (noCR_cons (ofNat_digit_ne_cr (Nat.mod_lt _ (by omega))) (fun c hc => absurd hc (by simp)))

theorem noCR_phName (k : Nat) : NoCR (phName k) := by
  unfold phName
  exact noCR_append (noCR_append (noCR_lit_of_all (by decide)) (noCR_natCharsGo _ _))
    (noCR_lit_of_all (by decide))

theorem noCR_phGo_code {segs : List Segment} (h : ∀ seg ∈ segs, NoCR seg.value) :
    ∀ k, NoCR (phGo segs k).1 := by
  induction segs with
  | nil => intro k c hc; cases hc
  | cons s rest ih =>
    intro k
    rw [phGo]
    split
    · exact noCR_append (h s (by simp))
        (ih (fun seg hs => h seg (List.mem_cons_of_mem _ hs)) k)
    · exact noCR_append (noCR_phName k)
        (ih (fun seg hs => h seg (List.mem_cons_of_mem _ hs)) (k + 1))

theorem phGo_store_mem {segs : List Segment} {v : Chars} :
    ∀ {k}, v ∈ (phGo segs k).2 → ∃ seg ∈ segs, v = seg.value := by
  induction segs with
  | nil => intro k hv; cases hv
  | cons s rest ih =>
    intro k hv
    rw [phGo] at hv
    split at hv
    · obtain ⟨seg, hs, he⟩ := ih hv
      exact ⟨seg, List.mem_cons_of_mem _ hs, he⟩
    · rcases List.mem_cons.mp hv with rfl | hv2
      · exact ⟨s, by simp, rfl⟩
      · obtain ⟨seg, hs, he⟩ := ih hv2
        exact ⟨seg, List.mem_cons_of_mem _ hs, he⟩

theorem dropLit_sub {kw cs rest : Chars} (h : dropLit kw cs = some rest) :
    ∀ c ∈ rest, c ∈ cs := by
  induction kw generalizing cs with
  | nil =>
    have h2 : some cs = some rest := h
    cases h2
    exact fun c hc => hc
  | cons p ps ih =>
    cases cs with
    | nil => cases h
    | cons x xs =>
      have h2 : (if x = p then dropLit ps xs else none) = some rest := h
      by_cases hx : x = p
      · rw [if_pos hx] at h2
        exact fun c hc => List.mem_cons_of_mem _ (ih h2 c hc)
      · rw [if_neg hx] at h2
        cases h2

theorem dropLitCI_sub {kw cs rest : Chars} (h : dropLitCI kw cs = some rest) :
    ∀ c ∈ rest, c ∈ cs := by
  induction kw generalizing cs with
  | nil =>
    have h2 : some cs = some rest := h
    cases h2
    exact fun c hc => hc
  | cons p ps ih =>
    cases cs with
    | nil => cases h
    | cons x xs =>
      have h2 : (if eqCI x p then dropLitCI ps xs else none) = some rest := h
      by_cases hx : eqCI x p = true
      · rw [if_pos hx] at h2
        exact fun c hc => List.mem_cons_of_mem _ (ih h2 c hc)
      · rw [if_neg hx] at h2
        cases h2

theorem kwCI_sub {kw cs src rest : Chars} (h : kwCI kw cs = some (src, rest)) :
    (∀ c ∈ src, c ∈ cs) ∧ ∀ c ∈ rest, c ∈ cs := by
  unfold kwCI at h
  split at h
  · cases h
    rename_i hdrop
    exact ⟨fun c hc => (List.take_sublist _ _).subset hc, dropLitCI_sub hdrop⟩
  · cases h

theorem altKwCI_sub {kws : List Chars} {cs src rest : Chars}
    (h : altKwCI kws cs = some (src, rest)) :
    (∀ c ∈ src, c ∈ cs) ∧ ∀ c ∈ rest, c ∈ cs := by
  induction kws with
  | nil => cases h
  | cons k ks ih =>
    unfold altKwCI at h
    split at h
    · cases h
      rename_i heq
      exact kwCI_sub heq
    · exact ih h

theorem altKwBd_sub {kws : List Chars} {cs src rest : Chars}
    (h : altKwBd kws cs = some (src, rest)) :
    (∀ c ∈ src, c ∈ cs) ∧ ∀ c ∈ rest, c ∈ cs := by
  induction kws with
  | nil => cases h
  | cons k ks ih =>
    unfold altKwBd at h
    split at h
    · split at h
      · cases h
        exact kwCI_sub (by assumption)
      · exact ih h
    · exact ih h

theorem replaceAllSub_succ (pat val : Chars) (f : Nat) (cs : Chars) :
    replaceAllSub pat val (f + 1) cs =
      match dropLit pat cs with
      | some rest => if pat.isEmpty then cs else val ++ replaceAllSub pat val f rest
      | none =>
        match cs with
        | [] => []
        | c :: rest => c :: replaceAllSub pat val f rest := rfl

theorem noCR_replaceAllSub {pat val : Chars} (hval : NoCR val) :
    ∀ fuel (cs : Chars), NoCR cs → NoCR (replaceAllSub pat val fuel cs) := by
  intro fuel
  induction fuel with
  | zero => intro cs h; exact h
  | succ f ih =>
    intro cs h
    rw [replaceAllSub_succ]
    split
    · split
      · exact h
      · rename_i hdrop _
        exact noCR_append hval (ih _ (noCR_of_sub (dropLit_sub hdrop) h))
    · match cs, h with
      | [], _ => intro c hc; cases hc
      | c :: rest, h =>
        exact noCR_cons (h c (by simp))
          (ih rest (fun d hd => h d (List.mem_cons_of_mem _ hd)))

theorem noCR_restGo {store : List Chars} (hstore : ∀ v ∈ store, NoCR v) :
    ∀ k {code : Chars}, NoCR code → NoCR (restGo store k code) := by
  induction store with
  | nil => intro k code h; exact h
  | cons v rest ih =>
    intro k code h
    rw [restGo]
    exact ih (fun w hw => hstore w (List.mem_cons_of_mem _ hw)) (k + 1)
      (noCR_replaceAllSub (hstore v (by simp)) _ _ h)

theorem noCR_char {c : Char} (h : c ≠ '\r') : NoCR [c] := by
  intro d hd
  rcases List.mem_cons.mp hd with rfl | hk
  · exact h
  · cases hk

theorem sub_takeWS {cs : Chars} : ∀ c ∈ takeWS cs, c ∈ cs :=
  fun _ hc => (List.takeWhile_sublist _).subset hc

theorem sub_dropWS {cs : Chars} : ∀ c ∈ dropWS cs, c ∈ cs :=
  fun _ hc => (List.dropWhile_sublist _).subset hc

theorem rscanB_succ (tryf : Option Char → Chars → Option (Nat × Chars)) (f : Nat)
    (prev : Option Char) (cs : Chars) :
    rscanB tryf (f + 1) prev cs =
      match tryf prev cs with
      | some (n, rep) =>
        if n = 0 then
          match cs with
          | [] => []
          | c :: rest => c :: rscanB tryf f (some c) rest
        else rep ++ rscanB tryf f (cs.take n).getLast? (cs.drop n)
      | none =>
        match cs with
        | [] => []
        | c :: rest => c :: rscanB tryf f (some c) rest := rfl

theorem noCR_rscanB {tryf : Option Char → Chars → Option (Nat × Chars)}
    (H : ∀ prev cs n rep, NoCR cs → tryf prev cs = some (n, rep) → NoCR rep) :
    ∀ (fuel : Nat) (prev : Option Char) (cs : Chars), NoCR cs →
      NoCR (rscanB tryf fuel prev cs) := by
  intro fuel
  induction fuel with
  | zero => intro p cs h; exact h
  | succ f ih =>
    intro p cs h
    rw [rscanB_succ]
    cases htry : tryf p cs with
    | some pr =>
      obtain ⟨n, rep⟩ := pr
      simp only
      split
      · match cs, h with
        | [], _ => intro c hc; cases hc
        | c :: rest, h =>
          exact noCR_cons (h c (by simp))
            (ih _ rest fun d hd => h d (List.mem_cons_of_mem _ hd))
      · exact noCR_append (H p cs n rep h htry) (ih _ _ (noCR_drop h n))
    | none =>
      simp only
      match cs, h with
      | [], _ => intro c hc; cases hc
      | c :: rest, h =>
        exact noCR_cons (h c (by simp))
          (ih _ rest fun d hd => h d (List.mem_cons_of_mem _ hd))

theorem noCR_runScan {tryf : Option Char → Chars → Option (Nat × Chars)}
    (H : ∀ prev cs n rep, NoCR cs → tryf prev cs = some (n, rep) → NoCR rep)
    {cs : Chars} (h : NoCR cs) : NoCR (runScan tryf cs) :=
  noCR_rscanB H _ _ _ h

theorem tryR1_noCR : ∀ prev cs n rep, NoCR cs → tryR1 prev cs = some (n, rep) →
    NoCR rep := by
  intro prev cs n rep h htry
  unfold tryR1 at htry
  dsimp only at htry
  split at htry
  · cases htry
  · split at htry
    · cases htry
    · rename_i r1 hk
      split at htry
      · cases htry
      · split at htry
        · cases htry
        · rename_i ksrc r3 halt
          split at htry
          · cases htry
            refine noCR_append (noCR_append (noCR_lit_of_all (by decide)) ?_)
              (noCR_char (by decide))
            exact noCR_of_sub
              (fun c hc => (kwCI_sub hk).2 c (sub_dropWS _ ((altKwCI_sub halt).1 c hc))) h
          · cases htry

theorem tryR3_noCR : ∀ prev cs n rep, NoCR cs → tryR3 prev cs = some (n, rep) →
    NoCR rep := by
  intro prev cs n rep h htry
  unfold tryR3 at htry
  dsimp only at htry
  split at htry
  · cases htry
  · split at htry
    · cases htry
    · rename_i src r1 hk
      split at htry
      · cases htry
      · split at htry
        · rename_i c0 rest0 hdw
          split at htry
          · cases htry
            refine noCR_append
              (noCR_of_sub (kwCI_sub hk).1 h) (noCR_cons (by decide) (noCR_char ?_))
            have hc0 : c0 ∈ cs :=
              (kwCI_sub hk).2 c0 (sub_dropWS c0 (hdw ▸ List.mem_cons_self c0 rest0))
            exact h c0 hc0
          · cases htry
        · cases htry

theorem noCR_takeWS {l : Chars} (h : NoCR l) : NoCR (takeWS l) :=
  noCR_takeWhile h jsWS

theorem noCR_dropWS {l : Chars} (h : NoCR l) : NoCR (dropWS l) :=
  noCR_dropWhile h jsWS

theorem tryR4_noCR : ∀ prev cs n rep, NoCR cs → tryR4 prev cs = some (n, rep) →
    NoCR rep := by
  intro prev cs n rep h htry
  unfold tryR4 at htry
  dsimp only at htry
  split at htry
  · cases htry
  · split at htry
    · cases htry
    · rename_i src r1 hk
      split at htry
      · cases htry
      · split at htry
        · rename_i c0 rest0 hdw
          split at htry
          · cases htry
            refine noCR_append
              (noCR_of_sub (kwCI_sub hk).1 h) (noCR_cons (by decide) (noCR_char ?_))
            have hc0 : c0 ∈ cs :=
              (kwCI_sub hk).2 c0 (sub_dropWS c0 (hdw ▸ List.mem_cons_self c0 rest0))
            exact h c0 hc0
          · cases htry
        · cases htry

theorem tryR5_noCR : ∀ prev cs n rep, NoCR cs → tryR5 prev cs = some (n, rep) →
    NoCR rep := by
  intro prev cs n rep h htry
  unfold tryR5 at htry
  dsimp only at htry
  split at htry
  · cases htry
  · split at htry
    · cases htry
    · rename_i src r1 hk
      split at htry
      · cases htry
      · split at htry
        · cases htry
        · split at htry
          · cases htry
          · split at htry
            · rename_i tsrc rr halt
              cases htry
              have hr1 : NoCR r1 := noCR_of_sub (altKwCI_sub hk).2 h
              refine noCR_append (noCR_of_sub (altKwCI_sub hk).1 h)
                (noCR_cons (by decide)
                  (noCR_append (noCR_append ?_ ?_) ?_))
              · exact noCR_takeWhile (noCR_dropWS hr1) wordChar
              · exact noCR_takeWS (noCR_drop (noCR_dropWS hr1) _)
              · exact noCR_of_sub (altKwBd_sub halt).1
                  (noCR_dropWS (noCR_drop (noCR_dropWS hr1) _))
            · cases htry

theorem tryR6a_noCR : ∀ prev cs n rep, NoCR cs → tryR6a prev cs = some (n, rep) →
    NoCR rep := by
  intro prev cs n rep h htry
  unfold tryR6a at htry
  split at htry
  · rename_i r1
    dsimp only at htry
    have hr1 : NoCR r1 := fun d hd => h d (List.mem_cons_of_mem _ hd)
    split at htry
    · cases htry
    · rename_i esrc r3 hk
      split at htry
      · cases htry
      · split at htry
        · cases htry
        · rename_i ksrc r5 halt
          split at htry
          · cases htry
            have hr3 : NoCR r3 := noCR_of_sub (kwCI_sub hk).2 (noCR_dropWS hr1)
            refine noCR_cons (by decide) (noCR_cons (by decide) ?_)
            refine noCR_append (noCR_append (noCR_append (noCR_append
              (noCR_of_sub (kwCI_sub hk).1 (noCR_dropWS hr1)) (noCR_takeWS hr3))
              (noCR_of_sub (altKwCI_sub halt).1 (noCR_dropWS hr3)))
              (noCR_takeWS (noCR_of_sub (altKwCI_sub halt).2 (noCR_dropWS hr3))))
              (noCR_char (by decide))
          · cases htry
  · cases htry

theorem tryR6b_noCR : ∀ prev cs n rep, NoCR cs → tryR6b prev cs = some (n, rep) →
    NoCR rep := by
  intro prev cs n rep h htry
  unfold tryR6b at htry
  split at htry
  · rename_i r1
    dsimp only at htry
    have hr1 : NoCR r1 := fun d hd => h d (List.mem_cons_of_mem _ hd)
    split at htry
    · cases htry
    · rename_i esrc r3 hk
      split at htry
      · cases htry
      · split at htry
        · cases htry
        · split at htry
          · cases htry
            have hr3 : NoCR r3 := noCR_of_sub (kwCI_sub hk).2 (noCR_dropWS hr1)
            refine noCR_cons (by decide) (noCR_cons (by decide) ?_)
            refine noCR_append (noCR_append (noCR_append (noCR_append
              (noCR_of_sub (kwCI_sub hk).1 (noCR_dropWS hr1)) (noCR_takeWS hr3))
              (noCR_takeWhile (noCR_dropWS hr3) wordChar))
              (noCR_takeWS (noCR_drop (noCR_dropWS hr3) _)))
              (noCR_char (by decide))
          · cases htry
  · cases htry

theorem tryR6c_noCR : ∀ prev cs n rep, NoCR cs → tryR6c prev cs = some (n, rep) →
    NoCR rep := by
  intro prev cs n rep h htry
  unfold tryR6c at htry
  split at htry
  · rename_i r1
    dsimp only at htry
    have hr1 : NoCR r1 := fun d hd => h d (List.mem_cons_of_mem _ hd)
    split at htry
    · cases htry
    · rename_i esrc r3 hk
      split at htry
      · cases htry
        have hr3 : NoCR r3 := noCR_of_sub (kwCI_sub hk).2 (noCR_dropWS hr1)
        refine noCR_cons (by decide) (noCR_cons (by decide) ?_)
        exact noCR_append (noCR_append
          (noCR_of_sub (kwCI_sub hk).1 (noCR_dropWS hr1)) (noCR_takeWS hr3))
          (noCR_char (by decide))
      · cases htry
  · cases htry

theorem tryR7_noCR : ∀ prev cs n rep, NoCR cs → tryR7 prev cs = some (n, rep) →
    NoCR rep := by
  intro prev cs n rep h htry
  unfold tryR7 at htry
  dsimp only at htry
  split at htry
  · cases htry
  · split at htry
    · cases htry
    · rename_i src r1 hk
      split at htry
      · cases htry
      · split at htry
        · cases htry
        · split at htry
          · cases htry
          · cases htry
            have hr1 : NoCR r1 := noCR_of_sub (kwCI_sub hk).2 h
            exact noCR_append (noCR_of_sub (kwCI_sub hk).1 h)
              (noCR_cons (by decide) (noCR_takeWhile (noCR_dropWS hr1) _))

theorem r8Back_noCR {src r1 : Chars} (hs : NoCR src) (hr : NoCR r1) :
    ∀ k n rep, r8Back src r1 k = some (n, rep) → NoCR rep := by
  intro k
  induction k with
  | zero => intro n rep htry; cases htry
  | succ f ih =>
    intro n rep htry
    unfold r8Back at htry
    dsimp only at htry
    split at htry
    · cases htry
      exact noCR_append hs (noCR_cons (by decide) (noCR_takeWhile (noCR_drop hr _) _))
    · exact ih n rep htry

theorem tryR8_noCR : ∀ prev cs n rep, NoCR cs → tryR8 prev cs = some (n, rep) →
    NoCR rep := by
  intro prev cs n rep h htry
  unfold tryR8 at htry
  dsimp only at htry
  split at htry
  · cases htry
  · split at htry
    · cases htry
    · rename_i src r1 hk
      split at htry
      · cases htry
      · exact r8Back_noCR (noCR_of_sub (kwCI_sub hk).1 h)
          (noCR_of_sub (kwCI_sub hk).2 h) _ n rep htry

theorem tryR9kw_noCR (kw : Chars) :
    ∀ prev cs n rep, NoCR cs → tryR9kw kw prev cs = some (n, rep) → NoCR rep := by
  intro prev cs n rep h htry
  unfold tryR9kw at htry
  split at htry
  · rename_i r1
    dsimp only at htry
    have hr1 : NoCR r1 := fun d hd => h d (List.mem_cons_of_mem _ hd)
    split at htry
    · rename_i src rest hk
      split at htry
      · cases htry
        exact noCR_cons (by decide) (noCR_cons (by decide)
          (noCR_of_sub (kwCI_sub hk).1 (noCR_dropWS hr1)))
      · cases htry
    · cases htry
  · cases htry

theorem r9bBack_noCR {src r1 : Chars} (hs : NoCR src) (hr : NoCR r1) :
    ∀ k n rep, r9bBack src r1 k = some (n, rep) → NoCR rep := by
  intro k
  induction k with
  | zero => intro n rep htry; cases htry
  | succ f ih =>
    intro n rep htry
    unfold r9bBack at htry
    dsimp only at htry
    split at htry
    · rename_i c0 rest0 hdrop
      split at htry
      · cases htry
        refine noCR_append hs (noCR_cons (by decide) (noCR_char ?_))
        have : c0 ∈ r1.drop (f + 1) := hdrop ▸ List.mem_cons_self c0 rest0
        exact hr c0 ((List.drop_sublist _ _).subset this)
      · exact ih n rep htry
    · exact ih n rep htry

theorem tryR9b_noCR : ∀ prev cs n rep, NoCR cs → tryR9b prev cs = some (n, rep) →
    NoCR rep := by
  intro prev cs n rep h htry
  unfold tryR9b at htry
  dsimp only at htry
  split at htry
  · cases htry
  · split at htry
    · cases htry
    · rename_i src r1 hk
      split at htry
      · cases htry
      · exact r9bBack_noCR (noCR_of_sub (kwCI_sub hk).1 h)
          (noCR_of_sub (kwCI_sub hk).2 h) _ n rep htry

theorem tryR9exc_noCR : ∀ prev cs n rep, NoCR cs → tryR9exc prev cs = some (n, rep) →
    NoCR rep := by
  intro prev cs n rep h htry
  unfold tryR9exc at htry
  dsimp only at htry
  split at htry
  · cases htry
  · split at htry
    · cases htry
    · rename_i src r1 hk
      split at htry
      · cases htry
      · split at htry
        · rename_i wsrc rest hw
          split at htry
          · cases htry
            have hr1 : NoCR r1 := noCR_of_sub (kwCI_sub hk).2 h
            exact noCR_append (noCR_of_sub (kwCI_sub hk).1 h)
              (noCR_cons (by decide) (noCR_of_sub (kwCI_sub hw).1 (noCR_dropWS hr1)))
          · cases htry
        · cases htry

theorem tryR9c_noCR : ∀ prev cs n rep, NoCR cs → tryR9c prev cs = some (n, rep) →
    NoCR rep := by
  intro prev cs n rep h htry
  unfold tryR9c at htry
  dsimp only at htry
  split at htry
  · cases htry
  · split at htry
    · cases htry
    · rename_i src r1 hk
      split at htry
      · cases htry
      · split at htry
        · cases htry
        · split at htry
          · cases htry
          · split at htry
            · rename_i wsrc rest hw
              split at htry
              · cases htry
                have hr1 : NoCR r1 := noCR_of_sub (kwCI_sub hk).2 h
                refine noCR_append (noCR_append (noCR_append
                  (noCR_of_sub (kwCI_sub hk).1 h) (noCR_takeWS hr1))
                  (noCR_takeWhile (noCR_dropWS hr1) _))
                  (noCR_cons (by decide) ?_)
                exact noCR_of_sub (kwCI_sub hw).1
                  (noCR_dropWS (noCR_drop (noCR_dropWS hr1) _))
              · cases htry
            · cases htry

theorem tryR10_noCR (kw : Chars) :
    ∀ prev cs n rep, NoCR cs → tryR10 kw prev cs = some (n, rep) → NoCR rep := by
  intro prev cs n rep h htry
  unfold tryR10 at htry
  dsimp only at htry
  split at htry
  · cases htry
  · split at htry
    · rename_i src r2 hk
      split at htry
      · cases htry
      · cases htry
        exact noCR_cons (by decide) (noCR_append
          (noCR_of_sub (kwCI_sub hk).1 (noCR_dropWS h)) (noCR_char (by decide)))
    · cases htry

theorem tryR10two_noCR (k1 k2 : Chars) :
    ∀ prev cs n rep, NoCR cs → tryR10two k1 k2 prev cs = some (n, rep) →
      NoCR rep := by
  intro prev cs n rep h htry
  unfold tryR10two at htry
  dsimp only at htry
  split at htry
  · cases htry
  · split at htry
    · rename_i s1 r2 hk1
      split at htry
      · cases htry
      · split at htry
        · rename_i s2 r3 hk2
          split at htry
          · cases htry
          · cases htry
            have hr2 : NoCR r2 := noCR_of_sub (kwCI_sub hk1).2 (noCR_dropWS h)
            refine noCR_cons (by decide) (noCR_append (noCR_append (noCR_append
              (noCR_of_sub (kwCI_sub hk1).1 (noCR_dropWS h)) (noCR_takeWS hr2))
              (noCR_of_sub (kwCI_sub hk2).1 (noCR_dropWS hr2)))
              (noCR_char (by decide)))
        · cases htry
    · cases htry

theorem r10IntoBack_noCR {wsLen : Nat} {src r2 : Chars} (hs : NoCR src) :
    ∀ k n rep, r10IntoBack wsLen src r2 k = some (n, rep) → NoCR rep := by
  intro k
  induction k with
  | zero => intro n rep htry; cases htry
  | succ f ih =>
    intro n rep htry
    unfold r10IntoBack at htry
    split at htry
    · exact ih n rep htry
    · cases htry
      exact noCR_cons (by decide) (noCR_append hs (noCR_char (by decide)))

theorem tryR10into_noCR :
    ∀ prev cs n rep, NoCR cs → tryR10into prev cs = some (n, rep) → NoCR rep := by
  intro prev cs n rep h htry
  unfold tryR10into at htry
  dsimp only at htry
  split at htry
  · cases htry
  · split at htry
    · rename_i src r2 hk
      split at htry
      · cases htry
      · exact r10IntoBack_noCR (noCR_of_sub (kwCI_sub hk).1 (noCR_dropWS h)) _ n rep htry
    · cases htry

theorem tryR10and_noCR :
    ∀ prev cs n rep, NoCR cs → tryR10and prev cs = some (n, rep) → NoCR rep := by
  intro prev cs n rep h htry
  unfold tryR10and at htry
  dsimp only at htry
  split at htry
  · cases htry
  · split at htry
    · rename_i src r2 hk
      split at htry
      · cases htry
      · split at htry
        · cases htry
          exact noCR_cons (by decide) (noCR_append
            (noCR_of_sub (kwCI_sub hk).1 (noCR_dropWS h)) (noCR_char (by decide)))
        · cases htry
    · cases htry

theorem splitNL_sub : ∀ {cs : Chars} {l : Chars}, l ∈ splitNL cs → ∀ c ∈ l, c ∈ cs := by
  intro cs
  induction cs with
  | nil =>
    intro l hl c hc
    unfold splitNL at hl
    rcases List.mem_cons.mp hl with rfl | h2
    · cases hc
    · cases h2
  | cons x t ih =>
    intro l hl c hc
    unfold splitNL at hl
    split at hl
    · rcases List.mem_cons.mp hl with rfl | h2
      · cases hc
      · exact List.mem_cons_of_mem _ (ih h2 c hc)
    · rename_i hx
      split at hl
      · rename_i hsp r heq
        rcases List.mem_cons.mp hl with rfl | h2
        · rcases List.mem_cons.mp hc with rfl | h3
          · exact List.mem_cons_self _ _
          · exact List.mem_cons_of_mem _ (ih (heq ▸ List.mem_cons_self hsp r) c h3)
        · exact List.mem_cons_of_mem _ (ih (heq ▸ List.mem_cons_of_mem _ h2) c hc)
      · rename_i heq
        rcases List.mem_cons.mp hl with rfl | h2
        · rcases List.mem_cons.mp hc with rfl | h3
          · exact List.mem_cons_self _ _
          · cases h3
        · cases h2

theorem zipPad_fst :
    ∀ {xs ys : List Chars} {p : Chars × Chars}, p ∈ zipPad xs ys → p.1 ∈ xs := by
  intro xs
  induction xs with
  | nil => intro ys p hp; cases hp
  | cons x xt ih =>
    intro ys p hp
    cases ys with
    | nil =>
      unfold zipPad at hp
      rcases List.mem_cons.mp hp with rfl | h2
      · exact List.mem_cons_self _ _
      · exact List.mem_cons_of_mem _ (ih h2)
    | cons y yt =>
      unfold zipPad at hp
      rcases List.mem_cons.mp hp with rfl | h2
      · exact List.mem_cons_self _ _
      · exact List.mem_cons_of_mem _ (ih h2)

theorem joinNL_noCR : ∀ {ls : List Chars}, (∀ l ∈ ls, NoCR l) → NoCR (joinNL ls) := by
  intro ls
  induction ls with
  | nil => intro _ c hc; cases hc
  | cons x r ih =>
    intro h
    cases r with
    | nil => exact h x (by simp)
    | cons y t =>
      show NoCR (x ++ '\n' :: joinNL (y :: t))
      exact noCR_append (h x (by simp))
        (noCR_cons (by decide) (ih fun l hl => h l (List.mem_cons_of_mem _ hl)))

theorem noCR_r2Once {code : Chars} (h : NoCR code) : NoCR (r2Once code) := by
  unfold r2Once
  refine joinNL_noCR fun l hl => ?_
  rcases List.mem_flatMap.mp hl with ⟨p, hp, hlp⟩
  have hp1 : NoCR p.1 := noCR_of_sub (splitNL_sub (zipPad_fst hp)) h
  split at hlp
  · rcases List.mem_cons.mp hlp with rfl | h2
    · exact noCR_take hp1 _
    · rcases List.mem_cons.mp h2 with rfl | h3
      · exact noCR_trimStart (noCR_drop hp1 _)
      · cases h3
  · rcases List.mem_cons.mp hlp with rfl | h2
    · exact hp1
    · cases h2

theorem noCR_r2Loop : ∀ (fuel : Nat) {code : Chars}, NoCR code → NoCR (r2Loop fuel code) := by
  intro fuel
  induction fuel with
  | zero => intro code h; exact h
  | succ f ih =>
    intro code h
    rw [r2Loop]
    split
    · exact h
    · exact ih (noCR_r2Once h)

theorem noCR_splitRules {cs : Chars} (h : NoCR cs) : NoCR (splitRules cs) := by
  unfold splitRules
  exact noCR_runScan tryR10and_noCR
    (noCR_runScan (tryR10_noCR _)
      (noCR_runScan (tryR10two_noCR _ _)
        (noCR_runScan (tryR10two_noCR _ _)
          (noCR_runScan (tryR10_noCR _)
            (noCR_runScan tryR10into_noCR
              (noCR_runScan (tryR10_noCR _)
                (noCR_runScan (tryR10_noCR _)
                  (noCR_runScan tryR9c_noCR
                    (noCR_runScan tryR9exc_noCR
                      (noCR_runScan tryR9b_noCR
                        (noCR_runScan (tryR9kw_noCR _)
                          (noCR_runScan (tryR9kw_noCR _)
                            (noCR_runScan (tryR9kw_noCR _)
                              (noCR_runScan (tryR9kw_noCR _)
                                (noCR_runScan tryR8_noCR
                                  (noCR_runScan tryR7_noCR
                                    (noCR_runScan tryR6c_noCR
                                      (noCR_runScan tryR6b_noCR
                                        (noCR_runScan tryR6a_noCR
                                          (noCR_runScan tryR5_noCR
                                            (noCR_runScan tryR4_noCR
                                              (noCR_runScan tryR3_noCR
                                                (noCR_r2Loop _
                                                  (noCR_runScan tryR1_noCR h))))))))))))))))))))))))

theorem tryWordKw_noCR {kw : Chars} (hkw : NoCR kw) :
    ∀ prev cs n rep, NoCR cs → tryWordKw kw prev cs = some (n, rep) → NoCR rep := by
  intro prev cs n rep _ htry
  unfold tryWordKw at htry
  split at htry
  · cases htry
  · split at htry
    · split at htry
      · cases htry
        exact hkw
      · cases htry
    · cases htry

theorem noCR_replaceWordCI {seg kw : Chars} (hseg : NoCR seg) (hkw : NoCR kw) :
    NoCR (replaceWordCI seg kw) :=
  noCR_runScan (tryWordKw_noCR hkw) hseg

theorem noCR_foldl_words :
    ∀ (kws : List Chars) {acc : Chars}, (∀ kw ∈ kws, NoCR kw) → NoCR acc →
      NoCR (kws.foldl replaceWordCI acc) := by
  intro kws
  induction kws with
  | nil => intro acc _ h; exact h
  | cons k kt ih =>
    intro acc hall h
    exact ih (fun kw hk => hall kw (List.mem_cons_of_mem _ hk))
      (noCR_replaceWordCI h (hall k (by simp)))

theorem noCR_keywordList : ∀ kw ∈ keywordList, NoCR kw := by
  intro kw hk c hc
  have hall : keywordList.all (fun w => w.all (fun c => !(c == '\r'))) = true := by decide
  have := List.all_eq_true.mp (List.all_eq_true.mp hall kw hk) c hc
  simpa using this

theorem noCR_uppercaseKeywords {line : Chars} (h : NoCR line) :
    NoCR (uppercaseKeywords line) := by
  unfold uppercaseKeywords
  intro c hc
  rcases List.mem_flatten.mp hc with ⟨piece, hpm, hcp⟩
  rcases List.mem_map.mp hpm with ⟨seg, hsm, rfl⟩
  have hval : NoCR seg.value := noCR_of_sub (tokenizeL_value_sub hsm) h
  revert hcp
  split
  · intro hcp
    exact noCR_foldl_words keywordList noCR_keywordList hval c hcp
  · intro hcp
    exact hval c hcp

theorem noCR_engineStepNE_out {t : Nat} {u : Bool} {st : EngSt} {o sl : Chars}
    (h : NoCR o) : NoCR (engineStepNE t u st o sl).2 := by
  change NoCR (sp _ ++ (if u then uppercaseKeywords (jsTrim o) else jsTrim o))
  refine noCR_append (noCR_sp _) ?_
  split
  · exact noCR_uppercaseKeywords (noCR_jsTrim h)
  · exact noCR_jsTrim h

theorem noCR_engineStep_out {t : Nat} {u : Bool} {st : EngSt} {o sl : Chars}
    (h : NoCR o) : NoCR (engineStep t u st o sl).2 := by
  unfold engineStep
  split
  · intro c hc
    exact absurd hc (List.not_mem_nil c)
  · exact noCR_engineStepNE_out h

theorem noCR_engineGo {t : Nat} {u : Bool} :
    ∀ {pairs : List (Chars × Chars)} (st : EngSt),
      (∀ p ∈ pairs, NoCR p.1) → ∀ l ∈ engineGo t u st pairs, NoCR l := by
  intro pairs
  induction pairs with
  | nil => intro st _ l hl; cases hl
  | cons p pt ih =>
    intro st hall l hl
    obtain ⟨o, sl⟩ := p
    rw [engineGo_cons] at hl
    rcases List.mem_cons.mp hl with rfl | h2
    · exact noCR_engineStep_out (hall (o, sl) (by simp))
    · exact ih _ (fun q hq => hall q (List.mem_cons_of_mem _ hq)) l h2

theorem noCR_dropTrailingEmpties {lines : List Chars}
    (h : ∀ l ∈ lines, NoCR l) : ∀ l ∈ dropTrailingEmpties lines, NoCR l := by
  intro l hl
  unfold dropTrailingEmpties at hl
  have h1 : l ∈ lines.reverse :=
    (List.dropWhile_sublist List.isEmpty).subset (List.mem_reverse.mp hl)
  exact h l (List.mem_reverse.mp h1)

theorem upChar_ne_cr {c : Char} (h : c ≠ '\r') : upChar c ≠ '\r' := by
  unfold upChar
  split
  · rename_i hr
    intro heq
    have hv : (c.toNat - 32).isValidChar := Or.inl (by omega)
    have h4 : (Char.ofNat (c.toNat - 32)).toNat = c.toNat - 32 := by
      unfold Char.ofNat
      rw [dif_pos hv]
      rfl
    have h3 := congrArg Char.toNat heq
    rw [h4] at h3
    have h5 : ('\r').toNat = 13 := rfl
    omega
  · exact h

theorem noCR_mapUp {l : Chars} (h : NoCR l) : NoCR (l.map upChar) := by
  intro c hc
  rcases List.mem_map.mp hc with ⟨a, ha, rfl⟩
  exact upChar_ne_cr (h a ha)

theorem noCR_padTo {kw : Chars} (h : NoCR kw) (w : Nat) : NoCR (padTo w kw) :=
  noCR_append h (noCR_sp _)

theorem noCR_sqlRewrite {blk : SqlBlock} {accRev : List Chars} {line : Chars}
    (h : NoCR line) : NoCR (sqlRewrite blk accRev line).1 := by
  unfold sqlRewrite
  dsimp only
  have htr : NoCR (trimStart line) := noCR_trimStart h
  split
  · split
    · exact noCR_append (noCR_append (noCR_sp _) (noCR_padTo (noCR_mapUp (noCR_take htr _)) _))
        (noCR_dropWS (noCR_drop htr _))
    · exact noCR_append (noCR_append (noCR_take h _) (noCR_padTo (noCR_mapUp (noCR_take htr _)) _))
        (noCR_dropWS (noCR_drop htr _))
  · split
    · split
      · exact noCR_append (noCR_append (noCR_sp _) (noCR_padTo (noCR_mapUp (noCR_take htr _)) _))
          (noCR_dropWS (noCR_drop htr _))
      · exact noCR_append (noCR_append (noCR_sp _) (noCR_padTo (noCR_mapUp (noCR_take htr _)) _))
          (noCR_dropWS (noCR_drop htr _))
    · exact noCR_append (noCR_append (noCR_take h _) (noCR_padTo (noCR_mapUp (noCR_take htr _)) _))
        (noCR_dropWS (noCR_drop htr _))
  · split
    · exact noCR_append (noCR_append (noCR_take h _) (noCR_padTo (noCR_mapUp (noCR_take htr _)) _))
        (noCR_dropWS (noCR_drop htr _))
    · exact h

theorem sqlAlignGo_nil (cur : Option SqlBlock) (stack : List SqlBlock)
    (accRev : List Chars) : sqlAlignGo cur stack accRev [] = accRev.reverse := rfl

theorem sqlAlignGo_cons (cur : Option SqlBlock) (stack : List SqlBlock)
    (accRev : List Chars) (line : Chars) (rest : List Chars) :
    sqlAlignGo cur stack accRev (line :: rest) =
      sqlAlignGo (sqlStep cur stack accRev line).1 (sqlStep cur stack accRev line).2.1
        ((sqlStep cur stack accRev line).2.2 :: accRev) rest := rfl

theorem noCR_sqlStep {cur : Option SqlBlock} {stack : List SqlBlock} {accRev : List Chars}
    {line : Chars} (h : NoCR line) : NoCR (sqlStep cur stack accRev line).2.2 := by
  unfold sqlStep
  split
  · dsimp only
    split
    · exact noCR_append (noCR_append (noCR_take h _) (noCR_lit_of_all (by decide)))
        (noCR_trimStart (noCR_drop h _))
    · exact h
  · repeat' first
      | split
      | dsimp only
    all_goals first
      | exact h
      | exact noCR_sqlRewrite h

theorem noCR_sqlAlignGo :
    ∀ {input : List Chars} (cur : Option SqlBlock) (stack : List SqlBlock)
      (accRev : List Chars),
      (∀ l ∈ accRev, NoCR l) → (∀ l ∈ input, NoCR l) →
      ∀ l ∈ sqlAlignGo cur stack accRev input, NoCR l := by
  intro input
  induction input with
  | nil =>
    intro cur stack accRev hacc _ l hl
    rw [sqlAlignGo_nil] at hl
    exact hacc l (List.mem_reverse.mp hl)
  | cons line rest ih =>
    intro cur stack accRev hacc hin l hl
    rw [sqlAlignGo_cons] at hl
    refine ih _ _ _ ?_ (fun l2 h2 => hin l2 (List.mem_cons_of_mem _ h2)) l hl
    intro l2 hl2
    rcases List.mem_cons.mp hl2 with rfl | h3
    · exact noCR_sqlStep (hin line (by simp))
    · exact hacc l2 h3

theorem noCR_parenAlignGo :
    ∀ {input : List Chars} (stack : List Nat) (accRev : List Chars),
      (∀ l ∈ accRev, NoCR l) → (∀ l ∈ input, NoCR l) →
      ∀ l ∈ parenAlignGo stack accRev input, NoCR l := by
  intro input
  induction input with
  | nil =>
    intro stack accRev hacc _ l hl
    unfold parenAlignGo at hl
    exact hacc l (List.mem_reverse.mp hl)
  | cons line rest ih =>
    intro stack accRev hacc hin l hl
    have hline : NoCR line := hin line (by simp)
    have hrest : ∀ l2 ∈ rest, NoCR l2 := fun l2 h2 => hin l2 (List.mem_cons_of_mem _ h2)
    unfold parenAlignGo at hl
    dsimp only at hl
    split at hl
    · exact ih _ _ (fun l2 hl2 => by
        rcases List.mem_cons.mp hl2 with rfl | h3
        exacts [hline, hacc l2 h3]) hrest l hl
    · refine ih _ _ ?_ hrest l hl
      intro l2 hl2
      rcases List.mem_cons.mp hl2 with rfl | h3
      · split
        · exact noCR_append (noCR_sp _) (noCR_trimStart hline)
        · exact hline
      · exact hacc l2 h3

theorem appendBack_noCR :
    ∀ {accRev : List Chars} {add : Chars} {accRev2 : List Chars},
      (∀ l ∈ accRev, NoCR l) → NoCR add → appendBack accRev add = some accRev2 →
      ∀ l ∈ accRev2, NoCR l := by
  intro accRev
  induction accRev with
  | nil => intro add accRev2 _ _ happ; cases happ
  | cons hd tl ih =>
    intro add accRev2 hall hadd happ l hl
    unfold appendBack at happ
    split at happ
    · cases happ
      rcases List.mem_cons.mp hl with rfl | h3
      · exact noCR_append (hall hd (by simp)) hadd
      · exact hall l (List.mem_cons_of_mem _ h3)
    · split at happ
      · cases happ
        rcases List.mem_cons.mp hl with rfl | h3
        · exact hall _ (by simp)
        · exact ih (fun l2 h2 => hall l2 (List.mem_cons_of_mem _ h2)) hadd
            (by assumption) l h3
      · cases happ

theorem noCR_joinClosers :
    ∀ {input : List Chars} (accRev : List Chars),
      (∀ l ∈ accRev, NoCR l) → (∀ l ∈ input, NoCR l) →
      ∀ l ∈ joinClosers accRev input, NoCR l := by
  intro input
  induction input with
  | nil =>
    intro accRev hacc _ l hl
    unfold joinClosers at hl
    exact hacc l (List.mem_reverse.mp hl)
  | cons line rest ih =>
    intro accRev hacc hin l hl
    have hline : NoCR line := hin line (by simp)
    have hrest : ∀ l2 ∈ rest, NoCR l2 := fun l2 h2 => hin l2 (List.mem_cons_of_mem _ h2)
    unfold joinClosers at hl
    dsimp only at hl
    split at hl
    · split at hl
      · rename_i happ
        exact ih _ (appendBack_noCR hacc (noCR_jsTrim hline) happ) hrest l hl
      · exact ih _ (fun l2 hl2 => by
          rcases List.mem_cons.mp hl2 with rfl | h3
          exacts [hline, hacc l2 h3]) hrest l hl
    · exact ih _ (fun l2 hl2 => by
        rcases List.mem_cons.mp hl2 with rfl | h3
        exacts [hline, hacc l2 h3]) hrest l hl

/-- C10: for every non-empty, non-whitespace-only input, the string returned
by `formatPlsql` contains no carriage-return character: every `\r\n` pair
and every lone `\r` is normalized to `\n` before processing, and every later
stage only emits characters drawn from its input, keyword tables, spaces and
`\n` separators. -/
theorem C10_no_carriage_return (s : String) (h : jsTrim s.data ≠ []) :
    NoCR (formatPlsql s).data := by
  show NoCR (formatPlsqlL 2 true s.data)
  unfold formatPlsqlL
  rw [if_neg (by simpa [List.isEmpty_iff] using h)]
  dsimp only
  have h0 : NoCR (normalizeNL s.data) := noCR_normalizeNL s.data
  have hsegs : ∀ seg ∈ tokenizeL (normalizeNL s.data), NoCR seg.value :=
    fun seg hs => noCR_of_sub (tokenizeL_value_sub hs) h0
  have hph : NoCR (phGo (tokenizeL (normalizeNL s.data)) 0).1 := noCR_phGo_code hsegs 0
  have hstore : ∀ v ∈ (phGo (tokenizeL (normalizeNL s.data)) 0).2, NoCR v := by
    intro v hv
    obtain ⟨seg, hs, rfl⟩ := phGo_store_mem hv
    exact hsegs seg hs
  have hcode1 : NoCR (restGo (phGo (tokenizeL (normalizeNL s.data)) 0).2 0
      (splitRules (phGo (tokenizeL (normalizeNL s.data)) 0).1)) :=
    noCR_restGo hstore 0 (noCR_splitRules hph)
  have hpairs : ∀ p ∈ zipPad
      (splitNL (restGo (phGo (tokenizeL (normalizeNL s.data)) 0).2 0
        (splitRules (phGo (tokenizeL (normalizeNL s.data)) 0).1)))
      (splitNL (stripNonCodeL (restGo (phGo (tokenizeL (normalizeNL s.data)) 0).2 0
        (splitRules (phGo (tokenizeL (normalizeNL s.data)) 0).1)))),
      NoCR p.1 :=
    fun p hp => noCR_of_sub (splitNL_sub (zipPad_fst hp)) hcode1
  have hengine := @noCR_engineGo 2 true _ ⟨0, false, [], 0⟩ hpairs
  have hdrop := noCR_dropTrailingEmpties hengine
  have hsql := noCR_sqlAlignGo none [] []
    (fun l hl => absurd hl (List.not_mem_nil l)) hdrop
  have hparen := noCR_parenAlignGo [] []
    (fun l hl => absurd hl (List.not_mem_nil l)) hsql
  have hjoin := noCR_joinClosers []
    (fun l hl => absurd hl (List.not_mem_nil l)) hparen
  exact noCR_append (joinNL_noCR hjoin) (noCR_char (by decide))

theorem C10_no_carriage_return_witness :
    NoCR (formatPlsql "x := CASE WHEN a = 1 THEN 'A' END;").data :=
  C10_no_carriage_return "x := CASE WHEN a = 1 THEN 'A' END;" (by decide)

end PlsqlIndenter
